import Mathlib

/-!
Shallow embedding of `src/runtime/jit/debugger_interface.cc` (the GDB JIT
debug interface of the ART runtime) together with proofs about the claims
of the specification.

Modelling conventions:
* C pointers to heap records are modelled as `Nat` identifiers allocated from
  a monotone counter `nextId`; `nullptr` is `Option.none`.
* The C heap is modelled by association lists keyed by identifier:
  `codeHeap` for `JITCodeEntry` records, `dexHeap` for `DEXFileEntry`
  records, and `blobHeap` for the `new uint8_t[...]` symfile buffers.
* `std::unordered_map` is an association list with key lookup/erase.
* `uint32_t` and `size_t` arithmetic is `Nat` arithmetic reduced `% 2 ^ 32`
  respectively `% 2 ^ 64` at every update, exactly where the C code can wrap.
* Lock acquisition (`MutexLock mu(...)`), calls through
  `__jit_debug_register_code_ptr`, and `delete` of records are recorded in an
  event trace (`Ev`); the trampoline event records the descriptor and the
  descriptor timestamp as they are at the moment of the call.
* Operations that dereference a pointer the source assumes valid (for example
  `DeleteJITCodeEntry` on an entry that is not allocated) are undefined
  behaviour in C++; they are totalised here as no-ops, and all theorems about
  them carry liveness hypotheses.
-/

/-- Key lookup in an association list (first binding wins), modelling
`std::unordered_map::find` / pointer dereference of a heap record. -/
def lookupA {V : Type} (k : Nat) : List (Nat × V) → Option V
  | [] => none
  | (k', v) :: l => if k' = k then some v else lookupA k l

/-- Update every binding of key `k` by `g` (on well-formed states keys are
unique, so this is the single in-place field update the C code performs). -/
def updateA {V : Type} (k : Nat) (g : V → V) : List (Nat × V) → List (Nat × V)
  | [] => []
  | (k', v) :: l => if k' = k then (k', g v) :: updateA k g l else (k', v) :: updateA k g l

/-- Remove every binding of key `k`, modelling `std::unordered_map::erase`
and `delete` of a heap record. -/
def eraseA {V : Type} (k : Nat) : List (Nat × V) → List (Nat × V)
  | [] => []
  | (k', v) :: l => if k' = k then eraseA k l else (k', v) :: eraseA k l

/-- `std::unordered_map::emplace`: insert only if the key is absent. -/
def emplaceA {V : Type} (k : Nat) (v : V) (l : List (Nat × V)) : List (Nat × V) :=
  match lookupA k l with
  | some _ => l
  | none => (k, v) :: l

/-- The `JITAction` enum of the GDB JIT interface. -/
inductive JITAction : Type
  | noaction
  | registerFn
  | unregisterFn
deriving DecidableEq, Repr

/-- The `JITCodeEntry` record.  `symfile_addr_` holds the identifier of the
owned symfile buffer in `blobHeap`; `symfile_size_` is the `uint64_t` size;
`ref_count` is the ART-internal `uint32_t` reference count. -/
structure JITCodeEntry : Type where
  next_ : Option Nat
  prev_ : Option Nat
  symfile_addr_ : Nat
  symfile_size_ : Nat
  ref_count : Nat
deriving DecidableEq, Repr

/-- The `JITDescriptor` record read by the debugger. -/
structure JITDescriptor : Type where
  version_ : Nat
  action_flag_ : JITAction
  relevant_entry_ : Option Nat
  first_entry_ : Option Nat
deriving DecidableEq, Repr

/-- The `DEXFileEntry` record; `dexfile_` is the opaque dex-file address. -/
structure DEXFileEntry : Type where
  next_ : Option Nat
  prev_ : Option Nat
  dexfile_ : Nat
deriving DecidableEq, Repr

/-- Observable events of a run: lock operations of `MutexLock`, calls through
`__jit_debug_register_code_ptr` (recording descriptor and timestamp at the
moment of the call), and the frees performed by `delete`/`delete[]`. -/
inductive Ev : Type
  | acquireLock
  | releaseLock
  | trampoline (d : JITDescriptor) (ts : Nat)
  | freeBlob (blobId : Nat)
  | freeCodeEntry (entryId : Nat)
  | freeDexEntry (entryId : Nat)
deriving DecidableEq, Repr

/-- Size in bytes of the C `JITCodeEntry` struct on an LP64 target
(three pointers, one `uint64_t`, one padded `uint32_t`). -/
def sizeofJITCodeEntry : Nat := 40

/-- Size in bytes of a data pointer (`sizeof(void*)`) on an LP64 target. -/
def sizeofPtr : Nat := 8

/-- The whole mutable state of `debugger_interface.cc`. -/
structure DbgState : Type where
  /-- `__jit_debug_descriptor`. -/
  descriptor : JITDescriptor
  /-- `__jit_debug_descriptor_timestamp` (`uint32_t`). -/
  descriptorTimestamp : Nat
  /-- `__art_debug_dexfiles` (head of the dex-file list). -/
  artDebugDexfiles : Option Nat
  /-- `__art_debug_dexfiles_timestamp` (`uint32_t`). -/
  dexfilesTimestamp : Nat
  /-- `g_jit_debug_mem_usage` (`size_t`). -/
  memUsage : Nat
  /-- `g_dexfile_entries`: dex-file address to `DEXFileEntry` identifier. -/
  dexfileEntries : List (Nat × Nat)
  /-- `g_jit_code_entries`: code address to `JITCodeEntry` identifier. -/
  jitCodeEntries : List (Nat × Nat)
  /-- Allocated `JITCodeEntry` records. -/
  codeHeap : List (Nat × JITCodeEntry)
  /-- Allocated `DEXFileEntry` records. -/
  dexHeap : List (Nat × DEXFileEntry)
  /-- Allocated symfile buffers (the `new uint8_t[size]` copies). -/
  blobHeap : List (Nat × List Nat)
  /-- Allocation counter for fresh identifiers. -/
  nextId : Nat
  /-- Event trace of the run so far. -/
  trace : List Ev
deriving DecidableEq, Repr

/-- The statically initialised state of the translation unit:
`__jit_debug_descriptor = { 1, JIT_NOACTION, nullptr, nullptr }`, both
timestamps `0`, both lists empty, `g_jit_debug_mem_usage = 0`. -/
def initState : DbgState where
  descriptor := { version_ := 1, action_flag_ := JITAction.noaction,
                  relevant_entry_ := none, first_entry_ := none }
  descriptorTimestamp := 0
  artDebugDexfiles := none
  dexfilesTimestamp := 0
  memUsage := 0
  dexfileEntries := []
  jitCodeEntries := []
  codeHeap := []
  dexHeap := []
  blobHeap := []
  nextId := 0
  trace := []

/-- `RegisterDexFileForNative(Thread*, const void* dexfile_header)`.
Takes the lock; if the address is not in `g_dexfile_entries`, allocates a
`DEXFileEntry`, splices it at the head of `__art_debug_dexfiles`, bumps
`__art_debug_dexfiles_timestamp` and inserts the index binding (the `emplace`
happens under the `count == 0` guard, hence a plain insert). -/
def RegisterDexFileForNative (s : DbgState) (dexfile_header : Nat) : DbgState :=
  match lookupA dexfile_header s.dexfileEntries with
  | some _ => { s with trace := s.trace ++ [Ev.acquireLock, Ev.releaseLock] }
  | none =>
    let id := s.nextId
    let entry : DEXFileEntry :=
      { next_ := s.artDebugDexfiles, prev_ := none, dexfile_ := dexfile_header }
    let heap1 := (id, entry) :: s.dexHeap
    let heap2 :=
      match s.artDebugDexfiles with
      | some nid => updateA nid (fun e => { e with prev_ := some id }) heap1
      | none => heap1
    { s with dexHeap := heap2,
             artDebugDexfiles := some id,
             dexfilesTimestamp := (s.dexfilesTimestamp + 1) % 2 ^ 32,
             dexfileEntries := (dexfile_header, id) :: s.dexfileEntries,
             nextId := s.nextId + 1,
             trace := s.trace ++ [Ev.acquireLock, Ev.releaseLock] }

/-- `DeregisterDexFileForNative(Thread*, const void* dexfile_header)`.
Takes the lock; if the address is registered, splices the entry out of the
doubly linked list, bumps the timestamp, `delete`s the entry and erases the
index binding; otherwise a no-op.  (The inner dead-identifier branch is
unreachable on states satisfying the global invariant.) -/
def DeregisterDexFileForNative (s : DbgState) (dexfile_header : Nat) : DbgState :=
  match lookupA dexfile_header s.dexfileEntries with
  | none => { s with trace := s.trace ++ [Ev.acquireLock, Ev.releaseLock] }
  | some id =>
    match lookupA id s.dexHeap with
    | none => { s with trace := s.trace ++ [Ev.acquireLock, Ev.releaseLock] }
    | some e =>
      let heap1 :=
        match e.prev_ with
        | some pid => updateA pid (fun e2 => { e2 with next_ := e.next_ }) s.dexHeap
        | none => s.dexHeap
      let head1 :=
        match e.prev_ with
        | some _ => s.artDebugDexfiles
        | none => e.next_
      let heap2 :=
        match e.next_ with
        | some nid => updateA nid (fun e2 => { e2 with prev_ := e.prev_ }) heap1
        | none => heap1
      { s with dexHeap := eraseA id heap2,
               artDebugDexfiles := head1,
               dexfilesTimestamp := (s.dexfilesTimestamp + 1) % 2 ^ 32,
               dexfileEntries := eraseA dexfile_header s.dexfileEntries,
               trace := s.trace ++ [Ev.acquireLock, Ev.freeDexEntry id, Ev.releaseLock] }

/-- `CreateJITCodeEntry(const std::vector<uint8_t>& symfile)`.
Copies the bytes into a fresh exactly-sized buffer, allocates the entry with
`ref_count = 0`, splices it at the head of the code-entry list, adds
`sizeof(JITCodeEntry) + symfile_size_` to `g_jit_debug_mem_usage`, updates
the descriptor (`first_entry_`, `relevant_entry_`, `JIT_REGISTER_FN`), bumps
the timestamp and calls the trampoline.  Returns the new entry identifier.
The `DCHECK_NE(symfile.size(), 0u)` precondition appears as a hypothesis of
the theorems, not in the definition (it is compiled out in release builds). -/
def CreateJITCodeEntry (s : DbgState) (symfile : List Nat) : DbgState × Nat :=
  let bid := s.nextId
  let id := s.nextId + 1
  let entry : JITCodeEntry :=
    { next_ := s.descriptor.first_entry_, prev_ := none,
      symfile_addr_ := bid, symfile_size_ := symfile.length, ref_count := 0 }
  let heap1 := (id, entry) :: s.codeHeap
  let heap2 :=
    match s.descriptor.first_entry_ with
    | some nid => updateA nid (fun e2 => { e2 with prev_ := some id }) heap1
    | none => heap1
  let d : JITDescriptor :=
    { s.descriptor with first_entry_ := some id, relevant_entry_ := some id,
                        action_flag_ := JITAction.registerFn }
  let ts := (s.descriptorTimestamp + 1) % 2 ^ 32
  ({ s with blobHeap := (bid, symfile) :: s.blobHeap,
            codeHeap := heap2,
            memUsage := (s.memUsage + (sizeofJITCodeEntry + symfile.length)) % 2 ^ 64,
            descriptor := d,
            descriptorTimestamp := ts,
            nextId := s.nextId + 2,
            trace := s.trace ++ [Ev.trampoline d ts] }, id)

/-- `DeleteJITCodeEntry(JITCodeEntry* entry)`.
Splices the entry out of the list, subtracts its accounted bytes (`size_t`
wraparound subtraction), updates the descriptor (`relevant_entry_` = the
removed entry, `JIT_UNREGISTER_FN`), bumps the timestamp, calls the
trampoline, and only then frees the symfile buffer and the entry record. -/
def DeleteJITCodeEntry (s : DbgState) (entry : Nat) : DbgState :=
  match lookupA entry s.codeHeap with
  | none => s
  | some e =>
    let heap1 :=
      match e.prev_ with
      | some pid => updateA pid (fun e2 => { e2 with next_ := e.next_ }) s.codeHeap
      | none => s.codeHeap
    let first1 :=
      match e.prev_ with
      | some _ => s.descriptor.first_entry_
      | none => e.next_
    let heap2 :=
      match e.next_ with
      | some nid => updateA nid (fun e2 => { e2 with prev_ := e.prev_ }) heap1
      | none => heap1
    let d : JITDescriptor :=
      { s.descriptor with first_entry_ := first1, relevant_entry_ := some entry,
                          action_flag_ := JITAction.unregisterFn }
    let ts := (s.descriptorTimestamp + 1) % 2 ^ 32
    { s with codeHeap := eraseA entry heap2,
             blobHeap := eraseA e.symfile_addr_ s.blobHeap,
             memUsage := (s.memUsage +
               (2 ^ 64 - (sizeofJITCodeEntry + e.symfile_size_) % 2 ^ 64)) % 2 ^ 64,
             descriptor := d,
             descriptorTimestamp := ts,
             trace := s.trace ++
               [Ev.trampoline d ts, Ev.freeBlob e.symfile_addr_, Ev.freeCodeEntry entry] }

/-- `IncrementJITCodeEntryRefcount(JITCodeEntry* entry, uintptr_t code_address)`.
`entry->ref_count++` (`uint32_t`) and `g_jit_code_entries.emplace(...)`. -/
def IncrementJITCodeEntryRefcount (s : DbgState) (entry : Nat) (code_address : Nat) :
    DbgState :=
  match lookupA entry s.codeHeap with
  | none => s
  | some _ =>
    { s with codeHeap :=
               updateA entry (fun e => { e with ref_count := (e.ref_count + 1) % 2 ^ 32 })
                 s.codeHeap,
             jitCodeEntries := emplaceA code_address entry s.jitCodeEntries }

/-- `DecrementJITCodeEntryRefcount(JITCodeEntry* entry, uintptr_t code_address)`.
`--entry->ref_count` (`uint32_t`); if the result is zero, `DeleteJITCodeEntry`;
in every case the index binding of `code_address` is erased afterwards. -/
def DecrementJITCodeEntryRefcount (s : DbgState) (entry : Nat) (code_address : Nat) :
    DbgState :=
  match lookupA entry s.codeHeap with
  | none => { s with jitCodeEntries := eraseA code_address s.jitCodeEntries }
  | some e =>
    let r := (e.ref_count + (2 ^ 32 - 1)) % 2 ^ 32
    let s1 : DbgState :=
      { s with codeHeap := updateA entry (fun e2 => { e2 with ref_count := r }) s.codeHeap }
    let s2 := if r = 0 then DeleteJITCodeEntry s1 entry else s1
    { s2 with jitCodeEntries := eraseA code_address s2.jitCodeEntries }

/-- `GetJITCodeEntry(uintptr_t code_address)`: pure index lookup. -/
def GetJITCodeEntry (s : DbgState) (code_address : Nat) : Option Nat :=
  lookupA code_address s.jitCodeEntries

/-- `GetJITCodeEntryMemUsage()`:
`g_jit_debug_mem_usage + g_jit_code_entries.size() * 2 * sizeof(void*)`. -/
def GetJITCodeEntryMemUsage (s : DbgState) : Nat :=
  (s.memUsage + s.jitCodeEntries.length * (2 * sizeofPtr)) % 2 ^ 64

/-! ### Association-list lemmas -/

theorem lookupA_cons_self {V : Type} (k : Nat) (v : V) (l : List (Nat × V)) :
    lookupA k ((k, v) :: l) = some v := by
  simp [lookupA]

theorem lookupA_cons_ne {V : Type} {k k' : Nat} (v : V) (l : List (Nat × V))
    (h : k' ≠ k) : lookupA k ((k', v) :: l) = lookupA k l := by
  simp [lookupA, h]

theorem lookupA_updateA_self {V : Type} (k : Nat) (g : V → V) (l : List (Nat × V)) :
    lookupA k (updateA k g l) = (lookupA k l).map g := by
  induction l with
  | nil => simp [lookupA, updateA]
  | cons p l ih =>
    obtain ⟨k', v⟩ := p
    by_cases h : k' = k <;> simp [lookupA, updateA, h, ih]

theorem lookupA_updateA_ne {V : Type} {j k : Nat} (g : V → V) (l : List (Nat × V))
    (h : j ≠ k) : lookupA j (updateA k g l) = lookupA j l := by
  induction l with
  | nil => simp [updateA]
  | cons p l ih =>
    obtain ⟨k', v⟩ := p
    by_cases h1 : k' = k
    · subst h1
      have h2 : k' ≠ j := fun hc => h hc.symm
      simp [updateA, lookupA, h2, ih]
    · by_cases h2 : k' = j <;> simp [updateA, lookupA, h, h1, h2, ih]

theorem lookupA_eraseA_self {V : Type} (k : Nat) (l : List (Nat × V)) :
    lookupA k (eraseA k l) = none := by
  induction l with
  | nil => simp [lookupA, eraseA]
  | cons p l ih =>
    obtain ⟨k', v⟩ := p
    by_cases h : k' = k <;> simp [lookupA, eraseA, h, ih]

theorem lookupA_eraseA_ne {V : Type} {j k : Nat} (l : List (Nat × V))
    (h : j ≠ k) : lookupA j (eraseA k l) = lookupA j l := by
  induction l with
  | nil => simp [eraseA]
  | cons p l ih =>
    obtain ⟨k', v⟩ := p
    by_cases h1 : k' = k
    · subst h1
      have h2 : k' ≠ j := fun hc => h hc.symm
      simp [eraseA, lookupA, h2, ih]
    · by_cases h2 : k' = j <;> simp [eraseA, lookupA, h, h1, h2, ih]

theorem mapFst_updateA {V : Type} (k : Nat) (g : V → V) (l : List (Nat × V)) :
    (updateA k g l).map Prod.fst = l.map Prod.fst := by
  induction l with
  | nil => simp [updateA]
  | cons p l ih =>
    obtain ⟨k', v⟩ := p
    by_cases h : k' = k <;> simp [updateA, h, ih]

theorem mem_mapFst_eraseA {V : Type} {j k : Nat} {l : List (Nat × V)}
    (h : j ∈ (eraseA k l).map Prod.fst) : j ∈ l.map Prod.fst := by
  induction l with
  | nil => simp [eraseA] at h
  | cons p l ih =>
    obtain ⟨k', v⟩ := p
    by_cases h1 : k' = k
    · simp only [eraseA, h1, if_pos rfl] at h
      exact List.mem_cons_of_mem _ (ih h)
    · simp only [eraseA, h1, if_neg h1, List.map_cons] at h
      rcases List.mem_cons.mp h with h2 | h2
      · exact List.mem_cons.mpr (Or.inl h2)
      · exact List.mem_cons_of_mem _ (ih h2)

theorem nodup_mapFst_eraseA {V : Type} {k : Nat} {l : List (Nat × V)}
    (h : (l.map Prod.fst).Nodup) : ((eraseA k l).map Prod.fst).Nodup := by
  induction l with
  | nil => simp [eraseA]
  | cons p l ih =>
    obtain ⟨k', v⟩ := p
    simp only [List.map_cons, List.nodup_cons] at h
    by_cases h1 : k' = k
    · simp only [eraseA, h1, if_pos rfl]
      exact ih h.2
    · simp only [eraseA, if_neg h1, List.map_cons, List.nodup_cons]
      exact ⟨fun hc => h.1 (mem_mapFst_eraseA hc), ih h.2⟩

theorem lookupA_eq_none_iff {V : Type} {k : Nat} {l : List (Nat × V)} :
    lookupA k l = none ↔ k ∉ l.map Prod.fst := by
  induction l with
  | nil => simp [lookupA]
  | cons p l ih =>
    obtain ⟨k', v⟩ := p
    by_cases h : k' = k
    · subst h
      simp [lookupA]
    · have h2 : k ≠ k' := fun hc => h hc.symm
      simp [lookupA, h, h2, ih]

theorem lookupA_isSome_iff {V : Type} {k : Nat} {l : List (Nat × V)} :
    (lookupA k l).isSome ↔ k ∈ l.map Prod.fst := by
  constructor
  · intro h
    by_contra hc
    rw [lookupA_eq_none_iff.mpr hc] at h
    simp at h
  · intro h
    cases hl : lookupA k l with
    | some v => simp
    | none => exact absurd h (lookupA_eq_none_iff.mp hl)

theorem eraseA_of_not_mem {V : Type} {k : Nat} {l : List (Nat × V)}
    (h : k ∉ l.map Prod.fst) : eraseA k l = l := by
  induction l with
  | nil => simp [eraseA]
  | cons p l ih =>
    obtain ⟨k', v⟩ := p
    simp only [List.map_cons, List.mem_cons] at h
    push_neg at h
    have h1 : k' ≠ k := fun hc => h.1 hc.symm
    simp [eraseA, h1, ih h.2]

theorem nodup_mapFst_emplaceA {V : Type} {k : Nat} (v : V) {l : List (Nat × V)}
    (h : (l.map Prod.fst).Nodup) : ((emplaceA k v l).map Prod.fst).Nodup := by
  unfold emplaceA
  cases hl : lookupA k l with
  | some w => exact h
  | none =>
    simp only [List.map_cons, List.nodup_cons]
    exact ⟨lookupA_eq_none_iff.mp hl, h⟩

theorem lookupA_emplaceA_ne {V : Type} {j k : Nat} (v : V) (l : List (Nat × V))
    (h : j ≠ k) : lookupA j (emplaceA k v l) = lookupA j l := by
  unfold emplaceA
  cases hl : lookupA k l with
  | some w => rfl
  | none => exact lookupA_cons_ne v l (fun hc => h hc.symm)

/-! ### Doubly-linked-list segments

`Seg f p h l t` states that, reading prev/next pointers through the view
`f : Nat → Option (Option Nat × Option Nat)`, the identifiers `l` form a
well-linked segment whose first node is `h`, whose first node's prev pointer
is `p`, and whose last node's next pointer is `t`. -/

def Seg (f : Nat → Option (Option Nat × Option Nat)) :
    Option Nat → Option Nat → List Nat → Option Nat → Prop
  | _, h, [], t => h = t
  | p, h, x :: l, t => h = some x ∧ ∃ nx, f x = some (p, nx) ∧ Seg f (some x) nx l t

theorem seg_frame {f f' : Nat → Option (Option Nat × Option Nat)}
    {p h t : Option Nat} {l : List Nat}
    (hseg : Seg f p h l t) (hagree : ∀ x ∈ l, f' x = f x) :
    Seg f' p h l t := by
  induction l generalizing p h with
  | nil => exact hseg
  | cons x l ih =>
    obtain ⟨hh, nx, hfx, hrest⟩ := hseg
    exact ⟨hh, nx, (hagree x (List.mem_cons_self x l)) ▸ hfx,
      ih hrest (fun y hy => hagree y (List.mem_cons_of_mem x hy))⟩

theorem seg_mem_isSome {f : Nat → Option (Option Nat × Option Nat)}
    {p h t : Option Nat} {l : List Nat}
    (hseg : Seg f p h l t) : ∀ x ∈ l, (f x).isSome := by
  induction l generalizing p h with
  | nil => intro x hx; exact absurd hx (List.not_mem_nil x)
  | cons y l ih =>
    obtain ⟨hh, nx, hfy, hrest⟩ := hseg
    intro x hx
    rcases List.mem_cons.mp hx with h1 | h1
    · subst h1; simp [hfy]
    · exact ih hrest x h1

/-- Auxiliary: the head link of segment `l` followed by tail link `t`. -/
def headLink (l : List Nat) (t : Option Nat) : Option Nat :=
  match l with
  | [] => t
  | x :: _ => some x

theorem seg_head_eq {f : Nat → Option (Option Nat × Option Nat)}
    {p h t : Option Nat} {l : List Nat} (hseg : Seg f p h l t) :
    h = headLink l t := by
  cases l with
  | nil => exact hseg
  | cons x l => exact hseg.1

/-- Auxiliary: the prev-pointer seen by the node that follows segment `l`
(`p` if `l` is empty, otherwise the last identifier of `l`). -/
def endPrev (p : Option Nat) (l : List Nat) : Option Nat :=
  match l.getLast? with
  | none => p
  | some y => some y

theorem endPrev_nil (p : Option Nat) : endPrev p [] = p := rfl

theorem getLast?_cons_exists (a : Nat) (l : List Nat) :
    ∃ w, (a :: l).getLast? = some w :=
  ⟨(a :: l).getLast (by simp), List.getLast?_eq_getLast_of_ne_nil (by simp)⟩

theorem mem_of_getLast?_eq {l : List Nat} {y : Nat} (h : l.getLast? = some y) :
    y ∈ l := by
  obtain ⟨hne, heq⟩ := List.mem_getLast?_eq_getLast (Option.mem_def.mpr h)
  exact heq ▸ List.getLast_mem hne

theorem endPrev_cons (p : Option Nat) (y : Nat) (l : List Nat) :
    endPrev p (y :: l) = endPrev (some y) l := by
  cases l with
  | nil => simp [endPrev]
  | cons a l =>
    obtain ⟨w, hw⟩ := getLast?_cons_exists a l
    have h2 : (y :: a :: l).getLast? = (a :: l).getLast? := List.getLast?_cons_cons
    simp [endPrev, h2, hw]

theorem seg_append {f : Nat → Option (Option Nat × Option Nat)}
    {p h t : Option Nat} (l1 l2 : List Nat) :
    Seg f p h (l1 ++ l2) t ↔
      Seg f p h l1 (headLink l2 t) ∧ Seg f (endPrev p l1) (headLink l2 t) l2 t := by
  induction l1 generalizing p h with
  | nil =>
    simp only [List.nil_append, endPrev_nil]
    cases l2 with
    | nil =>
      show Seg f p h [] t ↔ Seg f p h [] t ∧ Seg f p t [] t
      have ht : Seg f p t ([] : List Nat) t := rfl
      exact ⟨fun hs => ⟨hs, ht⟩, fun hs => hs.1⟩
    | cons x l2 =>
      constructor
      · intro hseg
        have hh : h = some x := hseg.1
        subst hh
        exact ⟨rfl, hseg⟩
      · intro ⟨h1, h2⟩
        have hh : h = some x := h1
        rw [hh]
        exact h2
  | cons y l1 ih =>
    simp only [List.cons_append, Seg, endPrev_cons]
    constructor
    · intro ⟨hh, nx, hfy, hrest⟩
      obtain ⟨ha, hb⟩ := ih.mp hrest
      exact ⟨⟨hh, nx, hfy, ha⟩, hb⟩
    · intro ⟨⟨hh, nx, hfy, ha⟩, hb⟩
      exact ⟨hh, nx, hfy, ih.mpr ⟨ha, hb⟩⟩

/-- Retarget the prev-pointer stored in the first node of a segment. -/
theorem seg_retarget {f f' : Nat → Option (Option Nat × Option Nat)}
    {q q' h t : Option Nat} {l : List Nat}
    (hseg : Seg f q h l t) (hnd : l.Nodup)
    (hhead : ∀ x nxv, h = some x → f x = some (q, nxv) → f' x = some (q', nxv))
    (hframe : ∀ j ∈ l, h ≠ some j → f' j = f j) :
    Seg f' q' h l t := by
  cases l with
  | nil => exact hseg
  | cons x l =>
    obtain ⟨hh, nx, hfx, hrest⟩ := hseg
    refine ⟨hh, nx, hhead x nx hh hfx, ?_⟩
    refine seg_frame hrest (fun j hj => ?_)
    have hxj : x ≠ j := fun hc => (List.nodup_cons.mp hnd).1 (hc ▸ hj)
    apply hframe j (List.mem_cons_of_mem x hj)
    rw [hh]
    intro hc
    injection hc with hc'
    exact hxj hc'

/-- Retarget the next-pointer stored in the last node of a segment. -/
theorem seg_retarget_next {f f' : Nat → Option (Option Nat × Option Nat)}
    {p h t t' : Option Nat} {l : List Nat}
    (hseg : Seg f p h l t) (hnd : l.Nodup) (hne : l ≠ [])
    (hlast : ∀ y pv, l.getLast? = some y → f y = some (pv, t) → f' y = some (pv, t'))
    (hframe : ∀ j ∈ l, l.getLast? ≠ some j → f' j = f j) :
    Seg f' p h l t' := by
  induction l generalizing p h with
  | nil => exact absurd rfl hne
  | cons y l ih =>
    obtain ⟨hh, nx, hfy, hrest⟩ := hseg
    cases l with
    | nil =>
      have hnx : nx = t := hrest
      subst hnx
      exact ⟨hh, t', hlast y p (by simp) hfy, rfl⟩
    | cons a l =>
      have hlast' : (y :: a :: l).getLast? = (a :: l).getLast? :=
        List.getLast?_cons_cons
      have hy_notlast : (y :: a :: l).getLast? ≠ some y := by
        rw [hlast']
        intro hc
        exact (List.nodup_cons.mp hnd).1 (mem_of_getLast?_eq hc)
      refine ⟨hh, nx, ?_, ?_⟩
      · rw [hframe y (List.mem_cons_self _ _) hy_notlast]
        exact hfy
      · refine ih hrest (List.nodup_cons.mp hnd).2 (by simp)
          (fun z pv hz hfz => hlast z pv (hlast' ▸ hz) hfz)
          (fun j hj hjne => hframe j (List.mem_cons_of_mem y hj) (hlast' ▸ hjne))

/-! ### Walking the lists through raw pointers -/

/-- Walk a list head-to-tail through the `next` pointers (fuel-bounded). -/
def walkNext (f : Nat → Option (Option Nat × Option Nat)) :
    Nat → Option Nat → List Nat
  | 0, _ => []
  | _ + 1, none => []
  | fuel + 1, some id =>
    match f id with
    | none => []
    | some (_, nx) => id :: walkNext f fuel nx

/-- Walk a list tail-to-head through the `prev` pointers (fuel-bounded). -/
def walkPrev (f : Nat → Option (Option Nat × Option Nat)) :
    Nat → Option Nat → List Nat
  | 0, _ => []
  | _ + 1, none => []
  | fuel + 1, some id =>
    match f id with
    | none => []
    | some (pv, _) => id :: walkPrev f fuel pv

theorem walkNext_of_seg {f : Nat → Option (Option Nat × Option Nat)}
    {p h : Option Nat} {l : List Nat} {fuel : Nat}
    (hseg : Seg f p h l none) (hfuel : l.length ≤ fuel) :
    walkNext f fuel h = l := by
  induction l generalizing p h fuel with
  | nil =>
    have hh : h = none := hseg
    subst hh
    cases fuel <;> rfl
  | cons x l ih =>
    obtain ⟨hh, nx, hfx, hrest⟩ := hseg
    subst hh
    obtain ⟨fu, rfl⟩ : ∃ fu, fuel = fu + 1 := by
      cases fuel with
      | zero => exact absurd hfuel (by simp)
      | succ fu => exact ⟨fu, rfl⟩
    simp only [walkNext, hfx]
    exact congrArg (x :: ·) (ih hrest (Nat.le_of_succ_le_succ hfuel))

theorem walkPrev_of_seg {f : Nat → Option (Option Nat × Option Nat)}
    {h t : Option Nat} {l : List Nat} {fuel : Nat}
    (hseg : Seg f none h l t) (hfuel : l.length ≤ fuel) :
    walkPrev f fuel l.getLast? = l.reverse := by
  induction l using List.reverseRecOn generalizing t fuel with
  | nil =>
    cases fuel <;> rfl
  | append_singleton l x ih =>
    obtain ⟨ha, hb⟩ := (seg_append l [x]).mp hseg
    obtain ⟨hhx, nx, hfx, _⟩ := hb
    obtain ⟨fu, rfl⟩ : ∃ fu, fuel = fu + 1 := by
      cases fuel with
      | zero => exact absurd hfuel (by simp)
      | succ fu => exact ⟨fu, rfl⟩
    have hlast : (l ++ [x]).getLast? = some x := by
      rw [List.getLast?_concat]
    have hprev : endPrev none l = l.getLast? := by
      cases hl : l.getLast? with
      | none => simp [endPrev, hl]
      | some y => simp [endPrev, hl]
    rw [hlast]
    simp only [walkPrev, hfx, hprev]
    have hlen : l.length ≤ fu := by
      have := hfuel
      simp only [List.length_append, List.length_cons, List.length_nil] at this
      omega
    rw [ih ha hlen]
    simp

/-! ### The well-formed-list predicate -/

/-- View of a heap of records as a partial map from identifier to
(prev, next) pointer pair. -/
def NodesView {V : Type} (pr nx : V → Option Nat) (heap : List (Nat × V)) :
    Nat → Option (Option Nat × Option Nat) :=
  fun id => (lookupA id heap).map (fun e => (pr e, nx e))

/-- A heap together with a head pointer forms a well-formed doubly linked
list: some identifier list `l` is correctly linked, has no duplicates, and
contains exactly the allocated records. -/
def GoodList {V : Type} (pr nx : V → Option Nat) (heap : List (Nat × V))
    (head : Option Nat) : Prop :=
  ∃ l, Seg (NodesView pr nx heap) none head l none ∧ l.Nodup ∧
    ∀ id, id ∈ l ↔ (lookupA id heap).isSome

theorem goodList_nil {V : Type} (pr nx : V → Option Nat) :
    GoodList pr nx [] none := by
  refine ⟨[], rfl, List.nodup_nil, fun id => ?_⟩
  simp [lookupA]

theorem getLast?_eq_none_imp_nil {l : List Nat} (h : l.getLast? = none) : l = [] := by
  cases l with
  | nil => rfl
  | cons a t =>
    have hw := List.getLast?_eq_getLast_of_ne_nil (l := a :: t) (by simp)
    rw [hw] at h
    exact absurd h (by simp)

/-- Splicing a fresh record in at the head of a well-formed list preserves
well-formedness.  `heapNew` is the heap after allocating `new` holding `e`
and patching the old head record's prev pointer; it is described pointwise
so that the lemma applies to the heap expressions of
`RegisterDexFileForNative` and `CreateJITCodeEntry` directly. -/
theorem goodList_push {V : Type} {pr nx : V → Option Nat}
    {heap heapNew : List (Nat × V)} {head : Option Nat} (new : Nat) (e : V)
    (hgood : GoodList pr nx heap head) (hfresh : lookupA new heap = none)
    (hpr : pr e = none) (hnx : nx e = head)
    (hnewlook : lookupA new heapNew = some e)
    (hheadPatch : ∀ nid, head = some nid → ∀ v, lookupA nid heap = some v →
      ∃ w, lookupA nid heapNew = some w ∧ pr w = some new ∧ nx w = nx v)
    (hframe : ∀ j, j ≠ new → head ≠ some j → lookupA j heapNew = lookupA j heap)
    (hsome : ∀ j, j ≠ new → (lookupA j heapNew).isSome = (lookupA j heap).isSome) :
    GoodList pr nx heapNew (some new) := by
  obtain ⟨l, hseg, hnd, hmem⟩ := hgood
  have hnewl : new ∉ l := by
    intro hc
    rw [hmem, hfresh] at hc
    simp at hc
  refine ⟨new :: l, ⟨rfl, head, ?_, ?_⟩, List.nodup_cons.mpr ⟨hnewl, hnd⟩, ?_⟩
  · simp [NodesView, hnewlook, hpr, hnx]
  · refine seg_retarget hseg hnd (fun x nxv hx hfx => ?_) (fun j hj hjne => ?_)
    · simp only [NodesView] at hfx ⊢
      cases hv : lookupA x heap with
      | none => rw [hv] at hfx; simp at hfx
      | some v =>
        rw [hv] at hfx
        simp only [Option.map_some', Option.some.injEq, Prod.mk.injEq] at hfx
        obtain ⟨w, hw1, hw2, hw3⟩ := hheadPatch x hx v hv
        rw [hw1]
        simp [hw2, hw3, hfx.2]
    · have hjnew : j ≠ new := fun hc => hnewl (hc ▸ hj)
      simp only [NodesView]
      rw [hframe j hjnew hjne]
  · intro id
    by_cases hid : id = new
    · subst hid
      simp [hnewlook]
    · rw [List.mem_cons]
      constructor
      · intro hc
        rcases hc with hc | hc
        · exact absurd hc hid
        · rw [hsome id hid]
          exact (hmem id).mp hc
      · intro hc
        rw [hsome id hid] at hc
        exact Or.inr ((hmem id).mpr hc)

/-- Splicing an entry out of a well-formed list preserves well-formedness.
The patched heap `heapNew` and new head `headNew` are described pointwise:
the predecessor gets `prev->next_ = entry->next_`, the successor gets
`next->prev_ = entry->prev_`, the entry itself is freed, everything else is
untouched; the head moves to `entry->next_` exactly when the entry had no
predecessor.  This matches `DeregisterDexFileForNative` and
`DeleteJITCodeEntry`. -/
theorem goodList_splice {V : Type} {pr nx : V → Option Nat}
    {heap heapNew : List (Nat × V)} {head headNew : Option Nat} (x : Nat) (e : V)
    (hgood : GoodList pr nx heap head) (hx : lookupA x heap = some e)
    (hprevPatch : ∀ p, pr e = some p → p ≠ x → (∀ n, nx e = some n → p ≠ n) →
      ∀ v, lookupA p heap = some v →
      ∃ w, lookupA p heapNew = some w ∧ pr w = pr v ∧ nx w = nx e)
    (hnextPatch : ∀ n, nx e = some n → n ≠ x → (∀ p, pr e = some p → n ≠ p) →
      ∀ v, lookupA n heap = some v →
      ∃ w, lookupA n heapNew = some w ∧ pr w = pr e ∧ nx w = nx v)
    (hframe : ∀ j, j ≠ x → pr e ≠ some j → nx e ≠ some j →
      lookupA j heapNew = lookupA j heap)
    (hsome : ∀ j, j ≠ x → (lookupA j heapNew).isSome = (lookupA j heap).isSome)
    (hdead : lookupA x heapNew = none)
    (hheadN : pr e = none → headNew = nx e)
    (hheadS : ∀ p, pr e = some p → headNew = head) :
    GoodList pr nx heapNew headNew := by
  obtain ⟨l, hseg, hnd, hmem⟩ := hgood
  have hxl : x ∈ l := (hmem x).mpr (by simp [hx])
  obtain ⟨l1, l2, hldec⟩ := List.append_of_mem hxl
  subst hldec
  rw [List.nodup_append] at hnd
  obtain ⟨hnd1, hndc, hdisj⟩ := hnd
  obtain ⟨hxl2, hnd2⟩ := List.nodup_cons.mp hndc
  have hxl1 : x ∉ l1 := fun hc => hdisj hc (List.mem_cons_self x l2)
  obtain ⟨ha, hb⟩ := (seg_append l1 (x :: l2)).mp hseg
  have ha' : Seg (NodesView pr nx heap) none head l1 (some x) := ha
  obtain ⟨hhx, nxv, hfx, hrest⟩ := hb
  simp only [NodesView, hx, Option.map_some', Option.some.injEq, Prod.mk.injEq] at hfx
  obtain ⟨hfx1, hfx2⟩ := hfx
  have hnxhead : nxv = headLink l2 none := seg_head_eq hrest
  have hmemNew : ∀ id, id ∈ l1 ++ l2 ↔ (lookupA id heapNew).isSome := by
    intro id
    by_cases hid : id = x
    · subst hid
      rw [hdead]
      simp [hxl1, hxl2]
    · rw [hsome id hid, ← hmem id]
      simp only [List.mem_append, List.mem_cons]
      constructor
      · rintro (hc | hc)
        · exact Or.inl hc
        · exact Or.inr (Or.inr hc)
      · rintro (hc | hc | hc)
        · exact Or.inl hc
        · exact absurd hc hid
        · exact Or.inr hc
  have hndnew : (l1 ++ l2).Nodup := by
    rw [List.nodup_append]
    exact ⟨hnd1, hnd2, fun a2 ha2 ha3 => hdisj ha2 (List.mem_cons_of_mem x ha3)⟩
  refine ⟨l1 ++ l2, ?_, hndnew, hmemNew⟩
  cases l1 with
  | nil =>
    have hpe : pr e = none := by rw [hfx1]; rfl
    have hheadN' := hheadN hpe
    cases l2 with
    | nil =>
      have hne : nx e = none := by rw [hfx2, hnxhead]; rfl
      show headNew = (none : Option Nat)
      rw [hheadN', hne]
    | cons z l2' =>
      have hne : nx e = some z := by rw [hfx2, hnxhead]; rfl
      have hzx : z ≠ x := fun hc => hxl2 (hc ▸ List.mem_cons_self z l2')
      have hrest' : Seg (NodesView pr nx heap) (some x) (some z) (z :: l2') none := by
        have hnxv : nxv = some z := by rw [hnxhead]; rfl
        rw [hnxv] at hrest
        exact hrest
      show Seg (NodesView pr nx heapNew) none headNew (z :: l2') none
      rw [hheadN', hne]
      refine seg_retarget hrest' hnd2 (fun w nw hw hfw => ?_) (fun j hj hjne => ?_)
      · have hwz : w = z := by injection hw with h2; exact h2.symm
        subst hwz
        simp only [NodesView] at hfw ⊢
        cases hv : lookupA w heap with
        | none => rw [hv] at hfw; simp at hfw
        | some v =>
          rw [hv] at hfw
          simp only [Option.map_some', Option.some.injEq, Prod.mk.injEq] at hfw
          obtain ⟨w2, hw1, hw2, hw3⟩ :=
            hnextPatch w hne hzx (fun p hp => by rw [hp] at hpe; exact absurd hpe (by simp))
              v hv
          rw [hw1]
          simp [hw2, hw3, hfw.2, hpe]
      · have hjz : j ≠ z := fun hc => hjne (by rw [hc])
        have hjx : j ≠ x := fun hc => hxl2 (hc ▸ hj)
        simp only [NodesView]
        rw [hframe j hjx (by simp [hpe]) (by rw [hne]; intro hc; injection hc with h2; exact hjz h2.symm)]
  | cons y l1' =>
    obtain ⟨p, hp⟩ := getLast?_cons_exists y l1'
    have hpe : pr e = some p := by rw [hfx1]; simp [endPrev, hp]
    have hpl1 : p ∈ y :: l1' := mem_of_getLast?_eq hp
    have hpx : p ≠ x := fun hc => hxl1 (hc ▸ hpl1)
    have hheadS' := hheadS p hpe
    show Seg (NodesView pr nx heapNew) none headNew ((y :: l1') ++ l2) none
    rw [hheadS']
    cases l2 with
    | nil =>
      have hne : nx e = none := by rw [hfx2, hnxhead]; rfl
      rw [List.append_nil]
      refine seg_retarget_next ha' hnd1 (by simp)
        (fun w pv hw hfw => ?_) (fun j hj hjne => ?_)
      · have hwp : w = p := by rw [hp] at hw; injection hw with h2; exact h2.symm
        subst hwp
        simp only [NodesView] at hfw ⊢
        cases hv : lookupA w heap with
        | none => rw [hv] at hfw; simp at hfw
        | some v =>
          rw [hv] at hfw
          simp only [Option.map_some', Option.some.injEq, Prod.mk.injEq] at hfw
          obtain ⟨w2, hw1, hw2, hw3⟩ :=
            hprevPatch w hpe hpx (fun n hn => by rw [hn] at hne; exact absurd hne (by simp))
              v hv
          rw [hw1]
          simp [hw2, hw3, hfw.1, hne]
      · have hjp : j ≠ p := fun hc => hjne (by rw [hp, hc])
        have hjx : j ≠ x := fun hc => hxl1 (hc ▸ hj)
        simp only [NodesView]
        rw [hframe j hjx
          (by rw [hpe]; intro hc; injection hc with h2; exact hjp h2.symm)
          (by simp [hne])]
    | cons z l2' =>
      have hne : nx e = some z := by rw [hfx2, hnxhead]; rfl
      have hzx : z ≠ x := fun hc => hxl2 (hc ▸ List.mem_cons_self z l2')
      have hzl2 : z ∈ z :: l2' := List.mem_cons_self z l2'
      have hpz : p ≠ z := fun hc => hdisj hpl1 (List.mem_cons_of_mem x (hc ▸ hzl2))
      refine (seg_append (y :: l1') (z :: l2')).mpr ⟨?_, ?_⟩
      · refine seg_retarget_next ha' hnd1 (by simp)
          (fun w pv hw hfw => ?_) (fun j hj hjne => ?_)
        · have hwp : w = p := by rw [hp] at hw; injection hw with h2; exact h2.symm
          subst hwp
          simp only [NodesView] at hfw ⊢
          cases hv : lookupA w heap with
          | none => rw [hv] at hfw; simp at hfw
          | some v =>
            rw [hv] at hfw
            simp only [Option.map_some', Option.some.injEq, Prod.mk.injEq] at hfw
            obtain ⟨w2, hw1, hw2, hw3⟩ :=
              hprevPatch w hpe hpx
                (fun n hn => by rw [hn] at hne; injection hne with h2; exact h2 ▸ hpz) v hv
            rw [hw1]
            simp [hw2, hw3, hfw.1, hne, headLink]
        · have hjp : j ≠ p := fun hc => hjne (by rw [hp, hc])
          have hjx : j ≠ x := fun hc => hxl1 (hc ▸ hj)
          have hjz : j ≠ z := fun hc =>
            hdisj hj (List.mem_cons_of_mem x (hc ▸ hzl2))
          simp only [NodesView]
          rw [hframe j hjx
            (by rw [hpe]; intro hc; injection hc with h2; exact hjp h2.symm)
            (by rw [hne]; intro hc; injection hc with h2; exact hjz h2.symm)]
      · have hrest' : Seg (NodesView pr nx heap) (some x) (some z) (z :: l2') none := by
          have hnxv : nxv = some z := by rw [hnxhead]; rfl
          rw [hnxv] at hrest
          exact hrest
        have hend : endPrev none (y :: l1') = some p := by simp [endPrev, hp]
        rw [hend]
        simp only [headLink]
        refine seg_retarget hrest' hnd2 (fun w nw hw hfw => ?_) (fun j hj hjne => ?_)
        · have hwz : w = z := by injection hw with h2; exact h2.symm
          subst hwz
          simp only [NodesView] at hfw ⊢
          cases hv : lookupA w heap with
          | none => rw [hv] at hfw; simp at hfw
          | some v =>
            rw [hv] at hfw
            simp only [Option.map_some', Option.some.injEq, Prod.mk.injEq] at hfw
            obtain ⟨w2, hw1, hw2, hw3⟩ :=
              hnextPatch w hne hzx
                (fun q hq => by rw [hq] at hpe; injection hpe with h2; exact h2 ▸ hpz.symm)
                v hv
            rw [hw1]
            simp [hw2, hw3, hfw.2, hpe]
        · have hjz : j ≠ z := fun hc => hjne (by rw [hc])
          have hjx : j ≠ x := fun hc => hxl2 (hc ▸ hj)
          have hjp : j ≠ p := fun hc =>
            hdisj (hc ▸ hpl1 : j ∈ y :: l1') (List.mem_cons_of_mem x hj)
          simp only [NodesView]
          rw [hframe j hjx
            (by rw [hpe]; intro hc; injection hc with h2; exact hjp h2.symm)
            (by rw [hne]; intro hc; injection hc with h2; exact hjz h2.symm)]

/-! ### Global state invariant -/

/-- Total accounted bytes of the live code entries:
`sizeof(JITCodeEntry) + symfile_size_` summed over the heap. -/
def codeMemSum (heap : List (Nat × JITCodeEntry)) : Nat :=
  (heap.map (fun p => sizeofJITCodeEntry + p.2.symfile_size_)).sum

theorem fresh_lookup_none {V : Type} {heap : List (Nat × V)} {n : Nat}
    (h : ∀ k ∈ heap.map Prod.fst, k < n) : lookupA n heap = none := by
  cases hl : lookupA n heap with
  | none => rfl
  | some v =>
    have hm : n ∈ heap.map Prod.fst := lookupA_isSome_iff.mp (by simp [hl])
    exact absurd (h n hm) (lt_irrefl n)

theorem lookupA_mem_keys {V : Type} {heap : List (Nat × V)} {k : Nat} {v : V}
    (h : lookupA k heap = some v) : k ∈ heap.map Prod.fst :=
  lookupA_isSome_iff.mp (by simp [h])

/-- The global invariant of all reachable states: both intrusive lists are
well-formed doubly linked lists covering exactly the allocated records, all
heaps and indexes have unique keys, allocated identifiers are below the
allocation counter, the dex-file index is a bijection onto the live
`DEXFileEntry` records, and the memory accumulator equals the accounted sum. -/
structure StateInv (s : DbgState) : Prop where
  dexGood : GoodList DEXFileEntry.prev_ DEXFileEntry.next_ s.dexHeap s.artDebugDexfiles
  codeGood : GoodList JITCodeEntry.prev_ JITCodeEntry.next_ s.codeHeap
    s.descriptor.first_entry_
  dexKeys : (s.dexHeap.map Prod.fst).Nodup
  codeKeys : (s.codeHeap.map Prod.fst).Nodup
  blobKeys : (s.blobHeap.map Prod.fst).Nodup
  dexIdxKeys : (s.dexfileEntries.map Prod.fst).Nodup
  jitIdxKeys : (s.jitCodeEntries.map Prod.fst).Nodup
  dexFresh : ∀ k ∈ s.dexHeap.map Prod.fst, k < s.nextId
  codeFresh : ∀ k ∈ s.codeHeap.map Prod.fst, k < s.nextId
  blobFresh : ∀ k ∈ s.blobHeap.map Prod.fst, k < s.nextId
  dexIdxComplete : ∀ id e, lookupA id s.dexHeap = some e →
    lookupA e.dexfile_ s.dexfileEntries = some id
  memAcc : s.memUsage = codeMemSum s.codeHeap % 2 ^ 64

theorem stateInv_init : StateInv initState := by
  refine ⟨goodList_nil _ _, goodList_nil _ _, ?_, ?_, ?_, ?_, ?_, ?_, ?_, ?_,
    ?_, ?_⟩ <;> simp [initState, lookupA, codeMemSum]

theorem stateInv_setTrace {s : DbgState} (t : List Ev) (h : StateInv s) :
    StateInv { s with trace := t } :=
  ⟨h.dexGood, h.codeGood, h.dexKeys, h.codeKeys, h.blobKeys, h.dexIdxKeys,
   h.jitIdxKeys, h.dexFresh, h.codeFresh, h.blobFresh,
   h.dexIdxComplete, h.memAcc⟩

/-! ### Branch characterisations of the operations -/

theorem register_spec_present (s : DbgState) (a : Nat)
    (h : (lookupA a s.dexfileEntries).isSome) :
    RegisterDexFileForNative s a =
      { s with trace := s.trace ++ [Ev.acquireLock, Ev.releaseLock] } := by
  cases hl : lookupA a s.dexfileEntries with
  | none => rw [hl] at h; simp at h
  | some id => simp only [RegisterDexFileForNative, hl]

theorem register_spec_absent (s : DbgState) (a : Nat)
    (h : lookupA a s.dexfileEntries = none) :
    RegisterDexFileForNative s a =
      { s with
        dexHeap :=
          (match s.artDebugDexfiles with
           | some nid => updateA nid (fun e => { e with prev_ := some s.nextId })
               (((s.nextId,
                 ⟨s.artDebugDexfiles, none, a⟩) : Nat × DEXFileEntry) :: s.dexHeap)
           | none =>
               ((s.nextId,
                 ⟨s.artDebugDexfiles, none, a⟩) : Nat × DEXFileEntry) :: s.dexHeap),
        artDebugDexfiles := some s.nextId,
        dexfilesTimestamp := (s.dexfilesTimestamp + 1) % 2 ^ 32,
        dexfileEntries := (a, s.nextId) :: s.dexfileEntries,
        nextId := s.nextId + 1,
        trace := s.trace ++ [Ev.acquireLock, Ev.releaseLock] } := by
  simp only [RegisterDexFileForNative, h]

theorem deregister_spec_absent (s : DbgState) (a : Nat)
    (h : lookupA a s.dexfileEntries = none) :
    DeregisterDexFileForNative s a =
      { s with trace := s.trace ++ [Ev.acquireLock, Ev.releaseLock] } := by
  simp only [DeregisterDexFileForNative, h]

theorem deregister_spec_present (s : DbgState) (a : Nat) (id : Nat) (e : DEXFileEntry)
    (hidx : lookupA a s.dexfileEntries = some id)
    (he : lookupA id s.dexHeap = some e) :
    DeregisterDexFileForNative s a =
      { s with
        dexHeap := eraseA id
          (match e.next_ with
           | some nid => updateA nid (fun e2 => { e2 with prev_ := e.prev_ })
               (match e.prev_ with
                | some pid => updateA pid (fun e2 => { e2 with next_ := e.next_ }) s.dexHeap
                | none => s.dexHeap)
           | none =>
               match e.prev_ with
               | some pid => updateA pid (fun e2 => { e2 with next_ := e.next_ }) s.dexHeap
               | none => s.dexHeap),
        artDebugDexfiles :=
          (match e.prev_ with
           | some _ => s.artDebugDexfiles
           | none => e.next_),
        dexfilesTimestamp := (s.dexfilesTimestamp + 1) % 2 ^ 32,
        dexfileEntries := eraseA a s.dexfileEntries,
        trace := s.trace ++ [Ev.acquireLock, Ev.freeDexEntry id, Ev.releaseLock] } := by
  simp only [DeregisterDexFileForNative, hidx, he]

theorem goodList_head_live {V : Type} {pr nx : V → Option Nat}
    {heap : List (Nat × V)} {nid : Nat}
    (hg : GoodList pr nx heap (some nid)) : (lookupA nid heap).isSome := by
  obtain ⟨l, hseg, hnd, hmem⟩ := hg
  cases l with
  | nil => exact absurd hseg (by simp [Seg])
  | cons b t =>
    have hb : (some nid : Option Nat) = some b := hseg.1
    injection hb with hb2
    subst hb2
    exact (hmem _).mp (List.mem_cons_self _ _)

/-! ### Invariant preservation: dex-file operations -/


theorem lookupA_updateA_isSome {V : Type} (j k : Nat) (g : V → V) (l : List (Nat × V)) :
    (lookupA j (updateA k g l)).isSome = (lookupA j l).isSome := by
  by_cases hj : j = k
  · subst hj
    rw [lookupA_updateA_self]
    cases lookupA j l <;> rfl
  · rw [lookupA_updateA_ne _ _ hj]

theorem lookupA_updateA_under {V : Type} {j k : Nat} {g : V → V} {l : List (Nat × V)}
    {w : V} (h : lookupA j (updateA k g l) = some w) :
    (∃ v, lookupA j l = some v ∧ w = g v) ∨ lookupA j l = some w := by
  by_cases hj : j = k
  · subst hj
    rw [lookupA_updateA_self] at h
    cases hv : lookupA j l with
    | none => rw [hv] at h; simp at h
    | some v =>
      rw [hv] at h
      simp only [Option.map_some', Option.some.injEq] at h
      exact Or.inl ⟨v, rfl, h.symm⟩
  · rw [lookupA_updateA_ne _ _ hj] at h
    exact Or.inr h

theorem stateInv_register (s : DbgState) (a : Nat) (h : StateInv s) :
    StateInv (RegisterDexFileForNative s a) := by
  cases hl : lookupA a s.dexfileEntries with
  | some id =>
    rw [register_spec_present s a (by simp [hl])]
    exact stateInv_setTrace _ h
  | none =>
    rw [register_spec_absent s a hl]
    have hfreshN : lookupA s.nextId s.dexHeap = none := fresh_lookup_none h.dexFresh
    have haidx : a ∉ s.dexfileEntries.map Prod.fst := lookupA_eq_none_iff.mp hl
    refine ⟨?_, h.codeGood, ?_, h.codeKeys, h.blobKeys, ?_, h.jitIdxKeys,
      ?_, ?_, ?_, ?_, h.memAcc⟩
    · -- dexGood: push at the head
      refine goodList_push s.nextId ⟨s.artDebugDexfiles, none, a⟩
        h.dexGood hfreshN rfl rfl ?_ ?_ ?_ ?_
      · cases hd : s.artDebugDexfiles with
        | none => exact lookupA_cons_self _ _ _
        | some nid =>
          have hnidlive : (lookupA nid s.dexHeap).isSome :=
            goodList_head_live (hd ▸ h.dexGood)
          have hnidne : s.nextId ≠ nid := by
            have := h.dexFresh nid (lookupA_isSome_iff.mp hnidlive)
            omega
          rw [lookupA_updateA_ne _ _ hnidne, lookupA_cons_self]
      · intro nid hnid v hv
        have hnidne : s.nextId ≠ nid := by
          have := h.dexFresh nid (lookupA_mem_keys hv)
          omega
        rw [hnid, lookupA_updateA_self, lookupA_cons_ne _ _ hnidne, hv]
        exact ⟨_, rfl, rfl, rfl⟩
      · intro j hj hjh
        cases hd : s.artDebugDexfiles with
        | none => exact lookupA_cons_ne _ _ (fun hc => hj hc.symm)
        | some nid =>
          have hjnid : j ≠ nid := fun hc => hjh (by rw [hd, hc])
          rw [lookupA_updateA_ne _ _ hjnid, lookupA_cons_ne _ _ (fun hc => hj hc.symm)]
      · intro j hj
        cases hd : s.artDebugDexfiles with
        | none => rw [lookupA_cons_ne _ _ (fun hc => hj hc.symm)]
        | some nid =>
          rw [lookupA_updateA_isSome, lookupA_cons_ne _ _ (fun hc => hj hc.symm)]
    · -- dexKeys
      cases hd : s.artDebugDexfiles with
      | none =>
        simp only [List.map_cons, List.nodup_cons]
        exact ⟨fun hc => absurd (h.dexFresh _ hc) (lt_irrefl _), h.dexKeys⟩
      | some nid =>
        rw [mapFst_updateA]
        simp only [List.map_cons, List.nodup_cons]
        exact ⟨fun hc => absurd (h.dexFresh _ hc) (lt_irrefl _), h.dexKeys⟩
    · -- dexIdxKeys
      simp only [List.map_cons, List.nodup_cons]
      exact ⟨haidx, h.dexIdxKeys⟩
    · -- dexFresh
      intro k hk
      show k < s.nextId + 1
      cases hd : s.artDebugDexfiles with
      | none =>
        rw [hd] at hk
        simp only [List.map_cons, List.mem_cons] at hk
        rcases hk with hk | hk
        · omega
        · have := h.dexFresh k hk
          omega
      | some nid =>
        rw [hd] at hk
        rw [mapFst_updateA] at hk
        simp only [List.map_cons, List.mem_cons] at hk
        rcases hk with hk | hk
        · omega
        · have := h.dexFresh k hk
          omega
    · -- codeFresh
      intro k hk
      show k < s.nextId + 1
      have := h.codeFresh k hk
      omega
    · -- blobFresh
      intro k hk
      show k < s.nextId + 1
      have := h.blobFresh k hk
      omega
    · -- dexIdxComplete
      intro id0 e0 he0
      by_cases hid0 : id0 = s.nextId
      · subst hid0
        have he0' : e0 = ⟨s.artDebugDexfiles, none, a⟩ := by
          cases hd : s.artDebugDexfiles with
          | none =>
            rw [hd] at he0
            rw [lookupA_cons_self] at he0
            injection he0 with h2
            rw [← h2]
          | some nid =>
            rw [hd] at he0
            have hnidlive : (lookupA nid s.dexHeap).isSome :=
              goodList_head_live (hd ▸ h.dexGood)
            have hnidne : s.nextId ≠ nid := by
              have := h.dexFresh nid (lookupA_isSome_iff.mp hnidlive)
              omega
            rw [lookupA_updateA_ne _ _ hnidne, lookupA_cons_self] at he0
            injection he0 with h2
            rw [← h2]
        rw [he0']
        exact lookupA_cons_self a s.nextId s.dexfileEntries
      · have hdex : ∃ v0, lookupA id0 s.dexHeap = some v0 ∧ v0.dexfile_ = e0.dexfile_ := by
          cases hd : s.artDebugDexfiles with
          | none =>
            rw [hd] at he0
            rw [lookupA_cons_ne _ _ (fun hc => hid0 hc.symm)] at he0
            exact ⟨e0, he0, rfl⟩
          | some nid =>
            rw [hd] at he0
            rcases lookupA_updateA_under he0 with ⟨v, hv, hw⟩ | hv
            · rw [lookupA_cons_ne _ _ (fun hc => hid0 hc.symm)] at hv
              exact ⟨v, hv, by rw [hw]⟩
            · rw [lookupA_cons_ne _ _ (fun hc => hid0 hc.symm)] at hv
              exact ⟨e0, hv, rfl⟩
        obtain ⟨v0, hv0, hdf⟩ := hdex
        have hold := h.dexIdxComplete id0 v0 hv0
        have hdfa : v0.dexfile_ ≠ a := by
          intro hc
          rw [hc, hl] at hold
          exact absurd hold (by simp)
        rw [← hdf, lookupA_cons_ne _ _ (fun hc => hdfa hc.symm)]
        exact hold

theorem stateInv_deregister (s : DbgState) (a : Nat) (h : StateInv s) :
    StateInv (DeregisterDexFileForNative s a) := by
  cases hl : lookupA a s.dexfileEntries with
  | none =>
    rw [deregister_spec_absent s a hl]
    exact stateInv_setTrace _ h
  | some id =>
    cases he : lookupA id s.dexHeap with
    | none =>
      have hnoop : DeregisterDexFileForNative s a =
          { s with trace := s.trace ++ [Ev.acquireLock, Ev.releaseLock] } := by
        simp only [DeregisterDexFileForNative, hl, he]
      rw [hnoop]
      exact stateInv_setTrace _ h
    | some e =>
      rw [deregister_spec_present s a id e hl he]
      refine ⟨?_, h.codeGood, ?_, h.codeKeys, h.blobKeys, ?_, h.jitIdxKeys,
        ?_, ?_, ?_, ?_, h.memAcc⟩
      · -- dexGood: splice the entry out
        refine goodList_splice id e h.dexGood he ?_ ?_ ?_ ?_ ?_ ?_ ?_
        · intro p hp hpx2 hpn v hv
          simp only [hp]
          cases hne2 : e.next_ with
          | none =>
            simp only [hne2]
            rw [lookupA_eraseA_ne _ hpx2, lookupA_updateA_self, hv]
            exact ⟨_, rfl, rfl, rfl⟩
          | some n =>
            have hpn' : p ≠ n := hpn n hne2
            simp only [hne2]
            rw [lookupA_eraseA_ne _ hpx2, lookupA_updateA_ne _ _ hpn',
              lookupA_updateA_self, hv]
            exact ⟨_, rfl, rfl, rfl⟩
        · intro n hn hnx2 hnp v hv
          simp only [hn]
          cases hpe2 : e.prev_ with
          | none =>
            simp only [hpe2]
            rw [lookupA_eraseA_ne _ hnx2, lookupA_updateA_self, hv]
            exact ⟨_, rfl, rfl, rfl⟩
          | some p =>
            have hnp' : n ≠ p := hnp p hpe2
            simp only [hpe2]
            rw [lookupA_eraseA_ne _ hnx2, lookupA_updateA_self,
              lookupA_updateA_ne _ _ hnp', hv]
            exact ⟨_, rfl, rfl, rfl⟩
        · intro j hj hjp hjn
          cases hpe2 : e.prev_ with
          | none =>
            cases hne2 : e.next_ with
            | none =>
              simp only [hpe2, hne2]
              rw [lookupA_eraseA_ne _ hj]
            | some n =>
              have hjn2 : j ≠ n := fun hc => hjn (by rw [hne2, hc])
              simp only [hpe2, hne2]
              rw [lookupA_eraseA_ne _ hj, lookupA_updateA_ne _ _ hjn2]
          | some p =>
            have hjp2 : j ≠ p := fun hc => hjp (by rw [hpe2, hc])
            cases hne2 : e.next_ with
            | none =>
              simp only [hpe2, hne2]
              rw [lookupA_eraseA_ne _ hj, lookupA_updateA_ne _ _ hjp2]
            | some n =>
              have hjn2 : j ≠ n := fun hc => hjn (by rw [hne2, hc])
              simp only [hpe2, hne2]
              rw [lookupA_eraseA_ne _ hj, lookupA_updateA_ne _ _ hjn2,
                lookupA_updateA_ne _ _ hjp2]
        · intro j hj
          rw [lookupA_eraseA_ne _ hj]
          cases hpe2 : e.prev_ <;> cases hne2 : e.next_ <;>
            simp only [hpe2, hne2, lookupA_updateA_isSome]
        · exact lookupA_eraseA_self _ _
        · intro hpe2
          simp only [hpe2]
        · intro p hpe2
          simp only [hpe2]
      · -- dexKeys
        refine nodup_mapFst_eraseA ?_
        cases hpe2 : e.prev_ <;> cases hne2 : e.next_ <;>
          simp only [hpe2, hne2, mapFst_updateA] <;> exact h.dexKeys
      · -- dexIdxKeys
        exact nodup_mapFst_eraseA h.dexIdxKeys
      · -- dexFresh
        intro k hk
        show k < s.nextId
        have hk2 := mem_mapFst_eraseA hk
        cases hpe2 : e.prev_ <;> cases hne2 : e.next_ <;>
          simp only [hpe2, hne2, mapFst_updateA] at hk2 <;> exact h.dexFresh k hk2
      · -- codeFresh
        intro k hk
        exact h.codeFresh k hk
      · -- blobFresh
        intro k hk
        exact h.blobFresh k hk
      · -- dexIdxComplete
        intro id0 e0 he0
        have hid0 : id0 ≠ id := by
          intro hc
          rw [hc, lookupA_eraseA_self] at he0
          exact absurd he0 (by simp)
        rw [lookupA_eraseA_ne _ hid0] at he0
        have hunder : ∃ v0, lookupA id0 s.dexHeap = some v0 ∧
            v0.dexfile_ = e0.dexfile_ := by
          cases hpe2 : e.prev_ with
          | none =>
            cases hne2 : e.next_ with
            | none =>
              simp only [hpe2, hne2] at he0
              exact ⟨e0, he0, rfl⟩
            | some n =>
              simp only [hpe2, hne2] at he0
              rcases lookupA_updateA_under he0 with ⟨v, hv, hw⟩ | hv
              · exact ⟨v, hv, by rw [hw]⟩
              · exact ⟨e0, hv, rfl⟩
          | some p =>
            cases hne2 : e.next_ with
            | none =>
              simp only [hpe2, hne2] at he0
              rcases lookupA_updateA_under he0 with ⟨v, hv, hw⟩ | hv
              · exact ⟨v, hv, by rw [hw]⟩
              · exact ⟨e0, hv, rfl⟩
            | some n =>
              simp only [hpe2, hne2] at he0
              rcases lookupA_updateA_under he0 with ⟨v1, hv1, hw1⟩ | hv1
              · rcases lookupA_updateA_under hv1 with ⟨v2, hv2, hw2⟩ | hv2
                · exact ⟨v2, hv2, by rw [hw1, hw2]⟩
                · exact ⟨v1, hv2, by rw [hw1]⟩
              · rcases lookupA_updateA_under hv1 with ⟨v2, hv2, hw2⟩ | hv2
                · exact ⟨v2, hv2, by rw [hw2]⟩
                · exact ⟨e0, hv2, rfl⟩
        obtain ⟨v0, hv0, hdf⟩ := hunder
        have hold := h.dexIdxComplete id0 v0 hv0
        have hdfa : v0.dexfile_ ≠ a := by
          intro hc
          rw [hc, hl] at hold
          injection hold with h2
          exact hid0 h2.symm
        rw [← hdf, lookupA_eraseA_ne _ hdfa]
        exact hold

/-! ### Branch characterisations and helpers: code-entry operations -/

theorem create_spec (s : DbgState) (b : List Nat) :
    CreateJITCodeEntry s b =
      ({ s with
          blobHeap := (s.nextId, b) :: s.blobHeap,
          codeHeap :=
            (match s.descriptor.first_entry_ with
             | some nid =>
                 updateA nid (fun e2 => { e2 with prev_ := some (s.nextId + 1) })
                   (((s.nextId + 1,
                      ⟨s.descriptor.first_entry_, none, s.nextId, b.length, 0⟩) :
                      Nat × JITCodeEntry) :: s.codeHeap)
             | none =>
                 ((s.nextId + 1,
                   ⟨s.descriptor.first_entry_, none, s.nextId, b.length, 0⟩) :
                   Nat × JITCodeEntry) :: s.codeHeap),
          memUsage := (s.memUsage + (sizeofJITCodeEntry + b.length)) % 2 ^ 64,
          descriptor := { s.descriptor with
            first_entry_ := some (s.nextId + 1),
            relevant_entry_ := some (s.nextId + 1),
            action_flag_ := JITAction.registerFn },
          descriptorTimestamp := (s.descriptorTimestamp + 1) % 2 ^ 32,
          nextId := s.nextId + 2,
          trace := s.trace ++ [Ev.trampoline
            { s.descriptor with
              first_entry_ := some (s.nextId + 1),
              relevant_entry_ := some (s.nextId + 1),
              action_flag_ := JITAction.registerFn }
            ((s.descriptorTimestamp + 1) % 2 ^ 32)] }, s.nextId + 1) := rfl

theorem delete_spec_absent (s : DbgState) (id : Nat)
    (he : lookupA id s.codeHeap = none) : DeleteJITCodeEntry s id = s := by
  simp only [DeleteJITCodeEntry, he]

theorem delete_spec (s : DbgState) (id : Nat) (e : JITCodeEntry)
    (he : lookupA id s.codeHeap = some e) :
    DeleteJITCodeEntry s id =
      { s with
        codeHeap := eraseA id
          (match e.next_ with
           | some nid => updateA nid (fun e2 => { e2 with prev_ := e.prev_ })
               (match e.prev_ with
                | some pid =>
                    updateA pid (fun e2 => { e2 with next_ := e.next_ }) s.codeHeap
                | none => s.codeHeap)
           | none =>
               match e.prev_ with
               | some pid =>
                   updateA pid (fun e2 => { e2 with next_ := e.next_ }) s.codeHeap
               | none => s.codeHeap),
        blobHeap := eraseA e.symfile_addr_ s.blobHeap,
        memUsage := (s.memUsage +
          (2 ^ 64 - (sizeofJITCodeEntry + e.symfile_size_) % 2 ^ 64)) % 2 ^ 64,
        descriptor := { s.descriptor with
          first_entry_ :=
            (match e.prev_ with
             | some _ => s.descriptor.first_entry_
             | none => e.next_),
          relevant_entry_ := some id,
          action_flag_ := JITAction.unregisterFn },
        descriptorTimestamp := (s.descriptorTimestamp + 1) % 2 ^ 32,
        trace := s.trace ++
          [Ev.trampoline
            { s.descriptor with
              first_entry_ :=
                (match e.prev_ with
                 | some _ => s.descriptor.first_entry_
                 | none => e.next_),
              relevant_entry_ := some id,
              action_flag_ := JITAction.unregisterFn }
            ((s.descriptorTimestamp + 1) % 2 ^ 32),
           Ev.freeBlob e.symfile_addr_, Ev.freeCodeEntry id] } := by
  simp only [DeleteJITCodeEntry, he]

theorem increment_spec_absent (s : DbgState) (id addr : Nat)
    (he : lookupA id s.codeHeap = none) :
    IncrementJITCodeEntryRefcount s id addr = s := by
  simp only [IncrementJITCodeEntryRefcount, he]

theorem increment_spec (s : DbgState) (id addr : Nat) (e : JITCodeEntry)
    (he : lookupA id s.codeHeap = some e) :
    IncrementJITCodeEntryRefcount s id addr =
      { s with
        codeHeap := updateA id
          (fun e2 => { e2 with ref_count := (e2.ref_count + 1) % 2 ^ 32 }) s.codeHeap,
        jitCodeEntries := emplaceA addr id s.jitCodeEntries } := by
  simp only [IncrementJITCodeEntryRefcount, he]

theorem decrement_spec_absent (s : DbgState) (id addr : Nat)
    (he : lookupA id s.codeHeap = none) :
    DecrementJITCodeEntryRefcount s id addr =
      { s with jitCodeEntries := eraseA addr s.jitCodeEntries } := by
  simp only [DecrementJITCodeEntryRefcount, he]

theorem decrement_spec_pos (s : DbgState) (id addr : Nat) (e : JITCodeEntry)
    (he : lookupA id s.codeHeap = some e)
    (hr : (e.ref_count + (2 ^ 32 - 1)) % 2 ^ 32 ≠ 0) :
    DecrementJITCodeEntryRefcount s id addr =
      { s with
        codeHeap := updateA id
          (fun e2 => { e2 with ref_count := (e.ref_count + (2 ^ 32 - 1)) % 2 ^ 32 })
          s.codeHeap,
        jitCodeEntries := eraseA addr s.jitCodeEntries } := by
  simp only [DecrementJITCodeEntryRefcount, he, if_neg hr]

theorem delete_frame_jitCodeEntries (s : DbgState) (id : Nat) :
    (DeleteJITCodeEntry s id).jitCodeEntries = s.jitCodeEntries := by
  cases he : lookupA id s.codeHeap with
  | none => rw [delete_spec_absent s id he]
  | some e => rw [delete_spec s id e he]

theorem decrement_spec_zero (s : DbgState) (id addr : Nat) (e : JITCodeEntry)
    (he : lookupA id s.codeHeap = some e)
    (hr : (e.ref_count + (2 ^ 32 - 1)) % 2 ^ 32 = 0) :
    DecrementJITCodeEntryRefcount s id addr =
      { DeleteJITCodeEntry { s with codeHeap := (updateA id (fun e2 => { e2 with ref_count := (e.ref_count + (2 ^ 32 - 1)) % 2 ^ 32 }) s.codeHeap) } id with jitCodeEntries := eraseA addr s.jitCodeEntries } := by
  simp only [DecrementJITCodeEntryRefcount, he, if_pos hr, delete_frame_jitCodeEntries]

/-! ### Memory-sum lemmas -/

theorem codeMemSum_cons (k : Nat) (v : JITCodeEntry) (l : List (Nat × JITCodeEntry)) :
    codeMemSum ((k, v) :: l) = sizeofJITCodeEntry + v.symfile_size_ + codeMemSum l := by
  simp [codeMemSum]

theorem codeMemSum_updateA (k : Nat) (g : JITCodeEntry → JITCodeEntry)
    (hg : ∀ v, (g v).symfile_size_ = v.symfile_size_) (l : List (Nat × JITCodeEntry)) :
    codeMemSum (updateA k g l) = codeMemSum l := by
  induction l with
  | nil => rfl
  | cons p l ih =>
    obtain ⟨k', v⟩ := p
    by_cases hk : k' = k
    · simp [updateA, hk, codeMemSum_cons, hg, ih]
    · simp [updateA, hk, codeMemSum_cons, ih]

theorem codeMemSum_updateA_prev (k : Nat) (p : Option Nat)
    (l : List (Nat × JITCodeEntry)) :
    codeMemSum (updateA k (fun e2 => { e2 with prev_ := p }) l) = codeMemSum l :=
  codeMemSum_updateA k (fun e2 => { e2 with prev_ := p }) (fun v => rfl) l

theorem codeMemSum_updateA_next (k : Nat) (nxt : Option Nat)
    (l : List (Nat × JITCodeEntry)) :
    codeMemSum (updateA k (fun e2 => { e2 with next_ := nxt }) l) = codeMemSum l :=
  codeMemSum_updateA k (fun e2 => { e2 with next_ := nxt }) (fun v => rfl) l

theorem codeMemSum_updateA_ref (k : Nat) (f : JITCodeEntry → Nat)
    (l : List (Nat × JITCodeEntry)) :
    codeMemSum (updateA k (fun e2 => { e2 with ref_count := f e2 }) l) = codeMemSum l :=
  codeMemSum_updateA k (fun e2 => { e2 with ref_count := f e2 }) (fun v => rfl) l

theorem codeMemSum_eraseA {k : Nat} {l : List (Nat × JITCodeEntry)} {v : JITCodeEntry}
    (hnd : (l.map Prod.fst).Nodup) (hv : lookupA k l = some v) :
    codeMemSum l = sizeofJITCodeEntry + v.symfile_size_ + codeMemSum (eraseA k l) := by
  induction l with
  | nil => simp [lookupA] at hv
  | cons p l ih =>
    obtain ⟨k', w⟩ := p
    simp only [List.map_cons, List.nodup_cons] at hnd
    by_cases hk : k' = k
    · subst hk
      rw [lookupA_cons_self] at hv
      injection hv with hv2
      subst hv2
      have hnl : eraseA k' l = l := eraseA_of_not_mem hnd.1
      simp [eraseA, hnl, codeMemSum_cons]
    · rw [lookupA_cons_ne _ _ hk] at hv
      simp [eraseA, hk, codeMemSum_cons, ih hnd.2 hv]
      omega

/-! ### More GoodList helpers -/

theorem goodList_of_pointwise {V : Type} {pr nx : V → Option Nat}
    {heap heap2 : List (Nat × V)} {head : Option Nat}
    (hg : GoodList pr nx heap head)
    (hview : ∀ j, NodesView pr nx heap2 j = NodesView pr nx heap j)
    (hsome : ∀ j, (lookupA j heap2).isSome = (lookupA j heap).isSome) :
    GoodList pr nx heap2 head := by
  obtain ⟨l, hseg, hnd, hmem⟩ := hg
  exact ⟨l, seg_frame hseg (fun x _ => hview x), hnd,
    fun id => (hmem id).trans (by rw [hsome id])⟩

/-- A live entry of a well-formed list is not its own neighbour. -/
theorem goodList_no_self {V : Type} {pr nx : V → Option Nat}
    {heap : List (Nat × V)} {head : Option Nat} {x : Nat} {e : V}
    (hg : GoodList pr nx heap head) (hx : lookupA x heap = some e) :
    pr e ≠ some x ∧ nx e ≠ some x := by
  obtain ⟨l, hseg, hnd, hmem⟩ := hg
  have hxl : x ∈ l := (hmem x).mpr (by simp [hx])
  obtain ⟨l1, l2, hldec⟩ := List.append_of_mem hxl
  subst hldec
  rw [List.nodup_append] at hnd
  obtain ⟨hnd1, hndc, hdisj⟩ := hnd
  obtain ⟨hxl2, hnd2⟩ := List.nodup_cons.mp hndc
  have hxl1 : x ∉ l1 := fun hc => hdisj hc (List.mem_cons_self x l2)
  obtain ⟨ha, hb⟩ := (seg_append l1 (x :: l2)).mp hseg
  obtain ⟨hhx, nxv, hfx, hrest⟩ := hb
  simp only [NodesView, hx, Option.map_some', Option.some.injEq, Prod.mk.injEq] at hfx
  obtain ⟨hfx1, hfx2⟩ := hfx
  have hnxhead : nxv = headLink l2 none := seg_head_eq hrest
  constructor
  · rw [hfx1]
    cases hl1 : l1.getLast? with
    | none => simp [endPrev, hl1]
    | some y =>
      have hyl1 : y ∈ l1 := mem_of_getLast?_eq hl1
      have : y ≠ x := fun hc => hxl1 (hc ▸ hyl1)
      simp [endPrev, hl1]
      intro hc
      exact this hc
  · rw [hfx2, hnxhead]
    cases l2 with
    | nil => simp [headLink]
    | cons z l2' =>
      have : z ≠ x := fun hc => hxl2 (hc ▸ List.mem_cons_self z l2')
      simp [headLink]
      intro hc
      exact this hc

/-! ### Invariant preservation: code-entry operations -/

theorem stateInv_create (s : DbgState) (b : List Nat) (h : StateInv s) :
    StateInv (CreateJITCodeEntry s b).1 := by
  rw [create_spec]
  refine ⟨h.dexGood, ?_, h.dexKeys, ?_, ?_, h.dexIdxKeys, h.jitIdxKeys,
    ?_, ?_, ?_, h.dexIdxComplete, ?_⟩
  · -- codeGood: push at the head of the code list
    refine goodList_push (s.nextId + 1)
      ⟨s.descriptor.first_entry_, none, s.nextId, b.length, 0⟩ h.codeGood
      (fresh_lookup_none (fun k hk => by have := h.codeFresh k hk; omega))
      rfl rfl ?_ ?_ ?_ ?_
    · cases hd : s.descriptor.first_entry_ with
      | none => exact lookupA_cons_self _ _ _
      | some nid =>
        have hnidlive : (lookupA nid s.codeHeap).isSome :=
          goodList_head_live (hd ▸ h.codeGood)
        have hnidne : s.nextId + 1 ≠ nid := by
          have := h.codeFresh nid (lookupA_isSome_iff.mp hnidlive)
          omega
        rw [lookupA_updateA_ne _ _ hnidne, lookupA_cons_self]
    · intro nid hnid v hv
      have hnidne : s.nextId + 1 ≠ nid := by
        have := h.codeFresh nid (lookupA_mem_keys hv)
        omega
      rw [hnid, lookupA_updateA_self, lookupA_cons_ne _ _ hnidne, hv]
      exact ⟨_, rfl, rfl, rfl⟩
    · intro j hj hjh
      cases hd : s.descriptor.first_entry_ with
      | none => exact lookupA_cons_ne _ _ (fun hc => hj hc.symm)
      | some nid =>
        have hjnid : j ≠ nid := fun hc => hjh (by rw [hd, hc])
        rw [lookupA_updateA_ne _ _ hjnid, lookupA_cons_ne _ _ (fun hc => hj hc.symm)]
    · intro j hj
      cases hd : s.descriptor.first_entry_ with
      | none => rw [lookupA_cons_ne _ _ (fun hc => hj hc.symm)]
      | some nid =>
        rw [lookupA_updateA_isSome, lookupA_cons_ne _ _ (fun hc => hj hc.symm)]
  · -- codeKeys
    cases hd : s.descriptor.first_entry_ with
    | none =>
      simp only [List.map_cons, List.nodup_cons]
      exact ⟨fun hc => by have := h.codeFresh _ hc; omega, h.codeKeys⟩
    | some nid =>
      rw [mapFst_updateA]
      simp only [List.map_cons, List.nodup_cons]
      exact ⟨fun hc => by have := h.codeFresh _ hc; omega, h.codeKeys⟩
  · -- blobKeys
    simp only [List.map_cons, List.nodup_cons]
    exact ⟨fun hc => by have := h.blobFresh _ hc; omega, h.blobKeys⟩
  · -- dexFresh
    intro k hk
    show k < s.nextId + 2
    have := h.dexFresh k hk
    omega
  · -- codeFresh
    intro k hk
    show k < s.nextId + 2
    cases hd : s.descriptor.first_entry_ with
    | none =>
      rw [hd] at hk
      simp only [List.map_cons, List.mem_cons] at hk
      rcases hk with hk | hk
      · omega
      · have := h.codeFresh k hk
        omega
    | some nid =>
      rw [hd] at hk
      rw [mapFst_updateA] at hk
      simp only [List.map_cons, List.mem_cons] at hk
      rcases hk with hk | hk
      · omega
      · have := h.codeFresh k hk
        omega
  · -- blobFresh
    intro k hk
    show k < s.nextId + 2
    simp only [List.map_cons, List.mem_cons] at hk
    rcases hk with hk | hk
    · omega
    · have := h.blobFresh k hk
      omega
  · -- memAcc
    show (s.memUsage + (sizeofJITCodeEntry + b.length)) % 2 ^ 64 =
      codeMemSum
        (match s.descriptor.first_entry_ with
         | some nid =>
             updateA nid (fun e2 => { e2 with prev_ := some (s.nextId + 1) })
               (((s.nextId + 1,
                  ⟨s.descriptor.first_entry_, none, s.nextId, b.length, 0⟩) :
                  Nat × JITCodeEntry) :: s.codeHeap)
         | none =>
             ((s.nextId + 1,
               ⟨s.descriptor.first_entry_, none, s.nextId, b.length, 0⟩) :
               Nat × JITCodeEntry) :: s.codeHeap) % 2 ^ 64
    have hsum : codeMemSum
        (match s.descriptor.first_entry_ with
         | some nid =>
             updateA nid (fun e2 => { e2 with prev_ := some (s.nextId + 1) })
               (((s.nextId + 1,
                  ⟨s.descriptor.first_entry_, none, s.nextId, b.length, 0⟩) :
                  Nat × JITCodeEntry) :: s.codeHeap)
         | none =>
             ((s.nextId + 1,
               ⟨s.descriptor.first_entry_, none, s.nextId, b.length, 0⟩) :
               Nat × JITCodeEntry) :: s.codeHeap) =
        sizeofJITCodeEntry + b.length + codeMemSum s.codeHeap := by
      cases hd : s.descriptor.first_entry_ with
      | none => simp only [codeMemSum_cons]
      | some nid => simp only [codeMemSum_updateA_prev, codeMemSum_cons]
    rw [hsum, h.memAcc]
    omega

theorem stateInv_delete (s : DbgState) (id : Nat) (h : StateInv s) :
    StateInv (DeleteJITCodeEntry s id) := by
  cases he : lookupA id s.codeHeap with
  | none =>
    rw [delete_spec_absent s id he]
    exact h
  | some e =>
    obtain ⟨hnp, hnn⟩ := goodList_no_self h.codeGood he
    rw [delete_spec s id e he]
    refine ⟨h.dexGood, ?_, h.dexKeys, ?_, ?_, h.dexIdxKeys, h.jitIdxKeys,
      h.dexFresh, ?_, ?_, h.dexIdxComplete, ?_⟩
    · -- codeGood: splice the entry out
      refine goodList_splice id e h.codeGood he ?_ ?_ ?_ ?_ ?_ ?_ ?_
      · intro p hp hpx2 hpn v hv
        simp only [hp]
        cases hne2 : e.next_ with
        | none =>
          simp only [hne2]
          rw [lookupA_eraseA_ne _ hpx2, lookupA_updateA_self, hv]
          exact ⟨_, rfl, rfl, rfl⟩
        | some n =>
          have hpn' : p ≠ n := hpn n hne2
          simp only [hne2]
          rw [lookupA_eraseA_ne _ hpx2, lookupA_updateA_ne _ _ hpn',
            lookupA_updateA_self, hv]
          exact ⟨_, rfl, rfl, rfl⟩
      · intro n hn hnx2 hnp2 v hv
        simp only [hn]
        cases hpe2 : e.prev_ with
        | none =>
          simp only [hpe2]
          rw [lookupA_eraseA_ne _ hnx2, lookupA_updateA_self, hv]
          exact ⟨_, rfl, rfl, rfl⟩
        | some p =>
          have hnp' : n ≠ p := hnp2 p hpe2
          simp only [hpe2]
          rw [lookupA_eraseA_ne _ hnx2, lookupA_updateA_self,
            lookupA_updateA_ne _ _ hnp', hv]
          exact ⟨_, rfl, rfl, rfl⟩
      · intro j hj hjp hjn
        cases hpe2 : e.prev_ with
        | none =>
          cases hne2 : e.next_ with
          | none =>
            simp only [hpe2, hne2]
            rw [lookupA_eraseA_ne _ hj]
          | some n =>
            have hjn2 : j ≠ n := fun hc => hjn (by rw [hne2, hc])
            simp only [hpe2, hne2]
            rw [lookupA_eraseA_ne _ hj, lookupA_updateA_ne _ _ hjn2]
        | some p =>
          have hjp2 : j ≠ p := fun hc => hjp (by rw [hpe2, hc])
          cases hne2 : e.next_ with
          | none =>
            simp only [hpe2, hne2]
            rw [lookupA_eraseA_ne _ hj, lookupA_updateA_ne _ _ hjp2]
          | some n =>
            have hjn2 : j ≠ n := fun hc => hjn (by rw [hne2, hc])
            simp only [hpe2, hne2]
            rw [lookupA_eraseA_ne _ hj, lookupA_updateA_ne _ _ hjn2,
              lookupA_updateA_ne _ _ hjp2]
      · intro j hj
        rw [lookupA_eraseA_ne _ hj]
        cases hpe2 : e.prev_ <;> cases hne2 : e.next_ <;>
          simp only [hpe2, hne2, lookupA_updateA_isSome]
      · exact lookupA_eraseA_self _ _
      · intro hpe2
        simp only [hpe2]
      · intro p hpe2
        simp only [hpe2]
    · -- codeKeys
      refine nodup_mapFst_eraseA ?_
      cases hpe2 : e.prev_ <;> cases hne2 : e.next_ <;>
        simp only [hpe2, hne2, mapFst_updateA] <;> exact h.codeKeys
    · -- blobKeys
      exact nodup_mapFst_eraseA h.blobKeys
    · -- codeFresh
      intro k hk
      show k < s.nextId
      have hk2 := mem_mapFst_eraseA hk
      cases hpe2 : e.prev_ <;> cases hne2 : e.next_ <;>
        simp only [hpe2, hne2, mapFst_updateA] at hk2 <;> exact h.codeFresh k hk2
    · -- blobFresh
      intro k hk
      exact h.blobFresh k (mem_mapFst_eraseA hk)
    · -- memAcc
      have hidp : ∀ p, e.prev_ = some p → id ≠ p := by
        intro p hp hc
        exact hnp (by rw [hp, hc])
      have hidn : ∀ n, e.next_ = some n → id ≠ n := by
        intro n hn hc
        exact hnn (by rw [hn, hc])
      have hlookid : lookupA id
          (match e.next_ with
           | some nid => updateA nid (fun e2 => { e2 with prev_ := e.prev_ })
               (match e.prev_ with
                | some pid =>
                    updateA pid (fun e2 => { e2 with next_ := e.next_ }) s.codeHeap
                | none => s.codeHeap)
           | none =>
               match e.prev_ with
               | some pid =>
                   updateA pid (fun e2 => { e2 with next_ := e.next_ }) s.codeHeap
               | none => s.codeHeap) = some e := by
        cases hpe2 : e.prev_ with
        | none =>
          cases hne2 : e.next_ with
          | none => simp only [hpe2, hne2]; exact he
          | some n =>
            simp only [hpe2, hne2]
            rw [lookupA_updateA_ne _ _ (hidn n hne2)]
            exact he
        | some p =>
          cases hne2 : e.next_ with
          | none =>
            simp only [hpe2, hne2]
            rw [lookupA_updateA_ne _ _ (hidp p hpe2)]
            exact he
          | some n =>
            simp only [hpe2, hne2]
            rw [lookupA_updateA_ne _ _ (hidn n hne2),
              lookupA_updateA_ne _ _ (hidp p hpe2)]
            exact he
      have hkeys2 : ((match e.next_ with
           | some nid => updateA nid
               (fun e2 : JITCodeEntry => { e2 with prev_ := e.prev_ })
               (match e.prev_ with
                | some pid =>
                    updateA pid (fun e2 => { e2 with next_ := e.next_ }) s.codeHeap
                | none => s.codeHeap)
           | none =>
               match e.prev_ with
               | some pid =>
                   updateA pid (fun e2 => { e2 with next_ := e.next_ }) s.codeHeap
               | none => s.codeHeap).map Prod.fst).Nodup := by
        cases hpe2 : e.prev_ <;> cases hne2 : e.next_ <;>
          simp only [hpe2, hne2, mapFst_updateA] <;> exact h.codeKeys
      have hsum2 : codeMemSum
          (match e.next_ with
           | some nid => updateA nid (fun e2 => { e2 with prev_ := e.prev_ })
               (match e.prev_ with
                | some pid =>
                    updateA pid (fun e2 => { e2 with next_ := e.next_ }) s.codeHeap
                | none => s.codeHeap)
           | none =>
               match e.prev_ with
               | some pid =>
                   updateA pid (fun e2 => { e2 with next_ := e.next_ }) s.codeHeap
               | none => s.codeHeap) = codeMemSum s.codeHeap := by
        cases hpe2 : e.prev_ <;> cases hne2 : e.next_ <;>
          simp only [hpe2, hne2, codeMemSum_updateA_prev, codeMemSum_updateA_next]
      have hsplit := codeMemSum_eraseA hkeys2 hlookid
      show (s.memUsage + (2 ^ 64 - (sizeofJITCodeEntry + e.symfile_size_) % 2 ^ 64))
          % 2 ^ 64 =
        codeMemSum (eraseA id
          (match e.next_ with
           | some nid => updateA nid
               (fun e2 : JITCodeEntry => { e2 with prev_ := e.prev_ })
               (match e.prev_ with
                | some pid =>
                    updateA pid (fun e2 => { e2 with next_ := e.next_ }) s.codeHeap
                | none => s.codeHeap)
           | none =>
               match e.prev_ with
               | some pid =>
                   updateA pid (fun e2 => { e2 with next_ := e.next_ }) s.codeHeap
               | none => s.codeHeap)) % 2 ^ 64
      rw [h.memAcc]
      rw [hsum2] at hsplit
      rw [hsplit]
      omega

theorem stateInv_increment (s : DbgState) (id addr : Nat) (h : StateInv s) :
    StateInv (IncrementJITCodeEntryRefcount s id addr) := by
  cases he : lookupA id s.codeHeap with
  | none =>
    rw [increment_spec_absent s id addr he]
    exact h
  | some e =>
    rw [increment_spec s id addr e he]
    refine ⟨h.dexGood, ?_, h.dexKeys, ?_, h.blobKeys, h.dexIdxKeys, ?_,
      h.dexFresh, ?_, h.blobFresh, h.dexIdxComplete, ?_⟩
    · refine goodList_of_pointwise h.codeGood (fun j => ?_)
        (fun j => lookupA_updateA_isSome j id _ _)
      by_cases hj : j = id
      · subst hj
        simp only [NodesView, lookupA_updateA_self]
        cases lookupA j s.codeHeap <;> rfl
      · simp only [NodesView, lookupA_updateA_ne _ _ hj]
    · rw [mapFst_updateA]
      exact h.codeKeys
    · exact nodup_mapFst_emplaceA _ h.jitIdxKeys
    · intro k hk
      rw [mapFst_updateA] at hk
      exact h.codeFresh k hk
    · show s.memUsage = _ % 2 ^ 64
      rw [codeMemSum_updateA_ref id (fun e2 => (e2.ref_count + 1) % 2 ^ 32)]
      exact h.memAcc

theorem stateInv_decrement (s : DbgState) (id addr : Nat) (h : StateInv s) :
    StateInv (DecrementJITCodeEntryRefcount s id addr) := by
  cases he : lookupA id s.codeHeap with
  | none =>
    rw [decrement_spec_absent s id addr he]
    exact ⟨h.dexGood, h.codeGood, h.dexKeys, h.codeKeys, h.blobKeys, h.dexIdxKeys,
      nodup_mapFst_eraseA h.jitIdxKeys, h.dexFresh, h.codeFresh, h.blobFresh,
      h.dexIdxComplete, h.memAcc⟩
  | some e =>
    have h1 : StateInv { s with codeHeap := (updateA id (fun e2 => { e2 with ref_count := (e.ref_count + (2 ^ 32 - 1)) % 2 ^ 32 }) s.codeHeap) } := by
      refine ⟨h.dexGood, ?_, h.dexKeys, ?_, h.blobKeys, h.dexIdxKeys, h.jitIdxKeys,
        h.dexFresh, ?_, h.blobFresh, h.dexIdxComplete, ?_⟩
      · refine goodList_of_pointwise h.codeGood (fun j => ?_)
          (fun j => lookupA_updateA_isSome j id _ _)
        by_cases hj : j = id
        · subst hj
          simp only [NodesView, lookupA_updateA_self]
          cases hv : lookupA j s.codeHeap with
          | none => rfl
          | some v => simp
        · simp only [NodesView, lookupA_updateA_ne _ _ hj]
      · rw [mapFst_updateA]
        exact h.codeKeys
      · intro k hk
        rw [mapFst_updateA] at hk
        exact h.codeFresh k hk
      · show s.memUsage = _ % 2 ^ 64
        rw [codeMemSum_updateA_ref id
          (fun e2 => (e.ref_count + (2 ^ 32 - 1)) % 2 ^ 32)]
        exact h.memAcc
    by_cases hr : (e.ref_count + (2 ^ 32 - 1)) % 2 ^ 32 = 0
    · rw [decrement_spec_zero s id addr e he hr]
      have h2 := stateInv_delete _ id h1
      exact ⟨h2.dexGood, h2.codeGood, h2.dexKeys, h2.codeKeys, h2.blobKeys,
        h2.dexIdxKeys, nodup_mapFst_eraseA h.jitIdxKeys, h2.dexFresh, h2.codeFresh,
        h2.blobFresh, h2.dexIdxComplete, h2.memAcc⟩
    · rw [decrement_spec_pos s id addr e he hr]
      exact ⟨h1.dexGood, h1.codeGood, h1.dexKeys, h1.codeKeys, h1.blobKeys,
        h1.dexIdxKeys, nodup_mapFst_eraseA h.jitIdxKeys, h1.dexFresh, h1.codeFresh,
        h1.blobFresh, h1.dexIdxComplete, h1.memAcc⟩

/-! ### Runs of operations and the list-integrity claim -/

/-- One call of the registration API. -/
inductive Op : Type
  | registerDex (addr : Nat)
  | deregisterDex (addr : Nat)
  | createCode (bytes : List Nat)
  | deleteCode (entry : Nat)
  | attach (entry : Nat) (addr : Nat)
  | detach (entry : Nat) (addr : Nat)
deriving DecidableEq, Repr

def applyOp (s : DbgState) : Op → DbgState
  | Op.registerDex a => RegisterDexFileForNative s a
  | Op.deregisterDex a => DeregisterDexFileForNative s a
  | Op.createCode b => (CreateJITCodeEntry s b).1
  | Op.deleteCode id => DeleteJITCodeEntry s id
  | Op.attach id a => IncrementJITCodeEntryRefcount s id a
  | Op.detach id a => DecrementJITCodeEntryRefcount s id a

/-- The state after a sequence of operations, starting from the statically
initialised state. -/
def run (ops : List Op) : DbgState := ops.foldl applyOp initState

theorem stateInv_applyOp (s : DbgState) (op : Op) (h : StateInv s) :
    StateInv (applyOp s op) := by
  cases op with
  | registerDex a => exact stateInv_register s a h
  | deregisterDex a => exact stateInv_deregister s a h
  | createCode b => exact stateInv_create s b h
  | deleteCode id => exact stateInv_delete s id h
  | attach id a => exact stateInv_increment s id a h
  | detach id a => exact stateInv_decrement s id a h

theorem stateInv_foldl (ops : List Op) (s : DbgState) (h : StateInv s) :
    StateInv (ops.foldl applyOp s) := by
  induction ops generalizing s with
  | nil => exact h
  | cons op ops ih => exact ih _ (stateInv_applyOp s op h)

theorem stateInv_run (ops : List Op) : StateInv (run ops) :=
  stateInv_foldl ops initState stateInv_init

/-- Head-to-tail walk of the dex-file list through raw `next_` pointers. -/
def dexWalk (s : DbgState) : List Nat :=
  walkNext (NodesView DEXFileEntry.prev_ DEXFileEntry.next_ s.dexHeap)
    s.dexHeap.length s.artDebugDexfiles

/-- Tail-to-head walk of the dex-file list through raw `prev_` pointers,
starting from the last entry the forward walk reaches. -/
def dexWalkBack (s : DbgState) : List Nat :=
  walkPrev (NodesView DEXFileEntry.prev_ DEXFileEntry.next_ s.dexHeap)
    s.dexHeap.length (dexWalk s).getLast?

/-- Head-to-tail walk of the code-entry list through raw `next_` pointers. -/
def codeWalk (s : DbgState) : List Nat :=
  walkNext (NodesView JITCodeEntry.prev_ JITCodeEntry.next_ s.codeHeap)
    s.codeHeap.length s.descriptor.first_entry_

/-- Tail-to-head walk of the code-entry list through raw `prev_` pointers. -/
def codeWalkBack (s : DbgState) : List Nat :=
  walkPrev (NodesView JITCodeEntry.prev_ JITCodeEntry.next_ s.codeHeap)
    s.codeHeap.length (codeWalk s).getLast?

theorem goodList_walk_props {V : Type} {pr nx : V → Option Nat}
    {heap : List (Nat × V)} {head : Option Nat} (hg : GoodList pr nx heap head) :
    (∀ id, id ∈ walkNext (NodesView pr nx heap) heap.length head ↔
        (lookupA id heap).isSome) ∧
    walkPrev (NodesView pr nx heap) heap.length
        (walkNext (NodesView pr nx heap) heap.length head).getLast? =
      (walkNext (NodesView pr nx heap) heap.length head).reverse ∧
    (walkNext (NodesView pr nx heap) heap.length head).Nodup := by
  obtain ⟨l, hseg, hnd, hmem⟩ := hg
  have hsub : ∀ x ∈ l, x ∈ heap.map Prod.fst :=
    fun x hx => lookupA_isSome_iff.mp ((hmem x).mp hx)
  have hlen : l.length ≤ heap.length := by
    have := (List.subperm_of_subset hnd hsub).length_le
    simpa using this
  have hwalk : walkNext (NodesView pr nx heap) heap.length head = l :=
    walkNext_of_seg hseg hlen
  rw [hwalk]
  exact ⟨hmem, walkPrev_of_seg hseg hlen, hnd⟩

/-- Claim C5: after any sequence of operations, both intrusive lists are
well-formed doubly linked lists: the head-to-tail walk through `next_`
pointers visits exactly the live entries, with no duplicates, and the
tail-to-head walk through `prev_` pointers visits the same entries in
reverse order.  In particular every operation — register, deregister,
create, delete, attach, detach — preserves this shape, including splice-out
from an arbitrary middle position. -/
theorem c5_list_integrity (ops : List Op) :
    ((∀ id, id ∈ dexWalk (run ops) ↔ (lookupA id (run ops).dexHeap).isSome) ∧
      dexWalkBack (run ops) = (dexWalk (run ops)).reverse ∧
      (dexWalk (run ops)).Nodup) ∧
    ((∀ id, id ∈ codeWalk (run ops) ↔ (lookupA id (run ops).codeHeap).isSome) ∧
      codeWalkBack (run ops) = (codeWalk (run ops)).reverse ∧
      (codeWalk (run ops)).Nodup) := by
  have h := stateInv_run ops
  constructor
  · simpa only [dexWalk, dexWalkBack] using goodList_walk_props h.dexGood
  · simpa only [codeWalk, codeWalkBack] using goodList_walk_props h.codeGood

/-! ### Shared helpers for the claim theorems -/

/-- The entry created by `CreateJITCodeEntry` is found in the new heap with
the documented initial field values. -/
theorem create_entry_lookup (s : DbgState) (bytes : List Nat) (hinv : StateInv s) :
    lookupA (CreateJITCodeEntry s bytes).2 (CreateJITCodeEntry s bytes).1.codeHeap =
      some ⟨s.descriptor.first_entry_, none, s.nextId, bytes.length, 0⟩ := by
  rw [create_spec]
  show lookupA (s.nextId + 1) _ = _
  cases hd : s.descriptor.first_entry_ with
  | none => exact lookupA_cons_self _ _ _
  | some nid =>
    have hnidlive : (lookupA nid s.codeHeap).isSome :=
      goodList_head_live (hd ▸ hinv.codeGood)
    have hnidne : s.nextId + 1 ≠ nid := by
      have := hinv.codeFresh nid (lookupA_isSome_iff.mp hnidlive)
      omega
    rw [lookupA_updateA_ne _ _ hnidne, lookupA_cons_self]

theorem countP_eq_one_of_unique {l : List Nat} {p : Nat → Bool} {x : Nat}
    (hnd : l.Nodup) (hx : x ∈ l) (hpx : p x = true)
    (huniq : ∀ y ∈ l, p y = true → y = x) : l.countP p = 1 := by
  induction l with
  | nil => simp at hx
  | cons b l ih =>
    obtain ⟨hb1, hb2⟩ := List.nodup_cons.mp hnd
    rw [List.countP_cons]
    rcases List.mem_cons.mp hx with hb | hb
    · subst hb
      have hz : l.countP p = 0 := by
        rw [List.countP_eq_zero]
        intro y hy hpy
        exact hb1 ((huniq y (List.mem_cons_of_mem _ hy) hpy) ▸ hy)
      simp [hpx, hz]
    · have hpb : p b = false := by
        by_contra hc
        rw [Bool.not_eq_false] at hc
        exact hb1 ((huniq b (List.mem_cons_self _ _) hc).symm ▸ hb)
      rw [ih hb2 hb (fun y hy hpy => huniq y (List.mem_cons_of_mem _ hy) hpy)]
      simp [hpb]

/-- Any `DecrementJITCodeEntryRefcount` call appends only trampoline and
free events to the trace — never a lock event. -/
theorem decrement_trace_no_lock (s : DbgState) (id addr : Nat) :
    ∃ tail, (DecrementJITCodeEntryRefcount s id addr).trace = s.trace ++ tail ∧
      Ev.acquireLock ∉ tail ∧ Ev.releaseLock ∉ tail := by
  cases he : lookupA id s.codeHeap with
  | none =>
    refine ⟨[], ?_, by simp, by simp⟩
    rw [decrement_spec_absent s id addr he]
    simp
  | some e =>
    by_cases hr : (e.ref_count + (2 ^ 32 - 1)) % 2 ^ 32 = 0
    · rw [decrement_spec_zero s id addr e he hr]
      have hlook : lookupA id (updateA id (fun e2 => { e2 with ref_count := (e.ref_count + (2 ^ 32 - 1)) % 2 ^ 32 }) s.codeHeap) = some { e with ref_count := (e.ref_count + (2 ^ 32 - 1)) % 2 ^ 32 } := by
        rw [lookupA_updateA_self, he]
        rfl
      rw [delete_spec { s with codeHeap := (updateA id (fun e2 => { e2 with ref_count := (e.ref_count + (2 ^ 32 - 1)) % 2 ^ 32 }) s.codeHeap) } id { e with ref_count := (e.ref_count + (2 ^ 32 - 1)) % 2 ^ 32 } hlook]
      refine ⟨[Ev.trampoline _ _, Ev.freeBlob _, Ev.freeCodeEntry id], rfl, by simp, by simp⟩
    · rw [decrement_spec_pos s id addr e he hr]
      exact ⟨[], by simp, by simp, by simp⟩

/-! ### The claim theorems -/

/-- Claim C2: immediately after every `CreateJITCodeEntry`, the descriptor's
`first_entry_` (list head) and `relevant_entry_` (most recent entry) both
equal the newly created entry and `action_flag_` is `JIT_REGISTER_FN`; and in
every deletion of a live entry, the recorded trampoline event — the moment
the notification fires — carries a descriptor whose `relevant_entry_` is the
entry being deleted and whose `action_flag_` is `JIT_UNREGISTER_FN`. -/
theorem c2_descriptor_coherence (s : DbgState) (bytes : List Nat) (id : Nat)
    (e : JITCodeEntry) (he : lookupA id s.codeHeap = some e) :
    ((CreateJITCodeEntry s bytes).1.descriptor.first_entry_ =
        some (CreateJITCodeEntry s bytes).2 ∧
      (CreateJITCodeEntry s bytes).1.descriptor.relevant_entry_ =
        some (CreateJITCodeEntry s bytes).2 ∧
      (CreateJITCodeEntry s bytes).1.descriptor.action_flag_ =
        JITAction.registerFn) ∧
    (∃ d ts, (DeleteJITCodeEntry s id).trace =
        s.trace ++ [Ev.trampoline d ts, Ev.freeBlob e.symfile_addr_,
          Ev.freeCodeEntry id] ∧
      d.relevant_entry_ = some id ∧ d.action_flag_ = JITAction.unregisterFn ∧
      d = (DeleteJITCodeEntry s id).descriptor) := by
  constructor
  · rw [create_spec]
    exact ⟨rfl, rfl, rfl⟩
  · rw [delete_spec s id e he]
    exact ⟨_, _, rfl, rfl, rfl, rfl⟩

/-- Witness for C2 at concrete inputs: the state right after creating an
entry from the byte `[1]`, whose entry `1` holds blob `0`. -/
theorem c2_witness :
    lookupA 1 (CreateJITCodeEntry initState [1]).1.codeHeap =
      some ⟨none, none, 0, 1, 0⟩ ∧
    ((CreateJITCodeEntry (CreateJITCodeEntry initState [1]).1 [2]).1.descriptor.first_entry_ =
        some (CreateJITCodeEntry (CreateJITCodeEntry initState [1]).1 [2]).2 ∧
      (CreateJITCodeEntry (CreateJITCodeEntry initState [1]).1 [2]).1.descriptor.action_flag_ =
        JITAction.registerFn) ∧
    (∃ d ts,
      (DeleteJITCodeEntry (CreateJITCodeEntry initState [1]).1 1).trace =
        (CreateJITCodeEntry initState [1]).1.trace ++
          [Ev.trampoline d ts, Ev.freeBlob 0, Ev.freeCodeEntry 1] ∧
      d.relevant_entry_ = some 1 ∧ d.action_flag_ = JITAction.unregisterFn) := by
  have h := c2_descriptor_coherence (CreateJITCodeEntry initState [1]).1 [2] 1
    ⟨none, none, 0, 1, 0⟩ (by decide)
  refine ⟨by decide, ⟨h.1.1, h.1.2.2⟩, ?_⟩
  obtain ⟨d, ts, h1, h2, h3, _⟩ := h.2
  exact ⟨d, ts, h1, h2, h3⟩

/-- Claim C4: deregistering a file address that is not currently registered
is a tolerated no-op: the file list, the file-list change counter and the
file index are all exactly as before, no error is raised, and only the lock
acquire/release pair is observed. -/
theorem c4_deregister_unregistered_noop (s : DbgState) (a : Nat)
    (h : lookupA a s.dexfileEntries = none) :
    DeregisterDexFileForNative s a =
      { s with trace := s.trace ++ [Ev.acquireLock, Ev.releaseLock] } :=
  deregister_spec_absent s a h

/-- Witness for C4 at a concrete state and address. -/
theorem c4_witness :
    lookupA 5 initState.dexfileEntries = none ∧
    DeregisterDexFileForNative initState 5 =
      { initState with trace := initState.trace ++ [Ev.acquireLock, Ev.releaseLock] } :=
  ⟨by decide, c4_deregister_unregistered_noop initState 5 (by decide)⟩

/-- Claim C7: in the code-entry mutations the descriptor and the change
counter are updated strictly before the trampoline is invoked — the recorded
trampoline event already carries the final descriptor and the bumped
timestamp — and on deletion the entry's storage (symfile buffer and entry
record) is freed only after that trampoline event. -/
theorem c7_update_before_trampoline (s : DbgState) (bytes : List Nat) (id : Nat)
    (e : JITCodeEntry) (he : lookupA id s.codeHeap = some e) :
    ((CreateJITCodeEntry s bytes).1.trace =
        s.trace ++ [Ev.trampoline (CreateJITCodeEntry s bytes).1.descriptor
          (CreateJITCodeEntry s bytes).1.descriptorTimestamp] ∧
      (CreateJITCodeEntry s bytes).1.descriptorTimestamp =
        (s.descriptorTimestamp + 1) % 2 ^ 32) ∧
    ((DeleteJITCodeEntry s id).trace =
        s.trace ++ [Ev.trampoline (DeleteJITCodeEntry s id).descriptor
            (DeleteJITCodeEntry s id).descriptorTimestamp,
          Ev.freeBlob e.symfile_addr_, Ev.freeCodeEntry id] ∧
      (DeleteJITCodeEntry s id).descriptorTimestamp =
        (s.descriptorTimestamp + 1) % 2 ^ 32) := by
  constructor
  · rw [create_spec]
    exact ⟨rfl, rfl⟩
  · rw [delete_spec s id e he]
    exact ⟨rfl, rfl⟩

/-- Witness for C7 at concrete inputs. -/
theorem c7_witness :
    lookupA 1 (CreateJITCodeEntry initState [1]).1.codeHeap =
      some ⟨none, none, 0, 1, 0⟩ ∧
    (((CreateJITCodeEntry (CreateJITCodeEntry initState [1]).1 [2]).1.trace =
        (CreateJITCodeEntry initState [1]).1.trace ++
          [Ev.trampoline
            (CreateJITCodeEntry (CreateJITCodeEntry initState [1]).1 [2]).1.descriptor
            (CreateJITCodeEntry (CreateJITCodeEntry initState [1]).1 [2]).1.descriptorTimestamp] ∧
      (CreateJITCodeEntry (CreateJITCodeEntry initState [1]).1 [2]).1.descriptorTimestamp =
        ((CreateJITCodeEntry initState [1]).1.descriptorTimestamp + 1) % 2 ^ 32) ∧
    ((DeleteJITCodeEntry (CreateJITCodeEntry initState [1]).1 1).trace =
        (CreateJITCodeEntry initState [1]).1.trace ++
          [Ev.trampoline (DeleteJITCodeEntry (CreateJITCodeEntry initState [1]).1 1).descriptor
              (DeleteJITCodeEntry (CreateJITCodeEntry initState [1]).1 1).descriptorTimestamp,
            Ev.freeBlob 0, Ev.freeCodeEntry 1] ∧
      (DeleteJITCodeEntry (CreateJITCodeEntry initState [1]).1 1).descriptorTimestamp =
        ((CreateJITCodeEntry initState [1]).1.descriptorTimestamp + 1) % 2 ^ 32)) :=
  ⟨by decide, c7_update_before_trampoline (CreateJITCodeEntry initState [1]).1 [2] 1
    ⟨none, none, 0, 1, 0⟩ (by decide)⟩

/-- Counterexample to claim C8 as stated: `CreateJITCodeEntry` mutates the
code list and the descriptor and invokes the trampoline without acquiring
the lock itself — its trace from the initial state contains no lock-acquire
event.  In the source only `RegisterDexFileForNative` and
`DeregisterDexFileForNative` contain a `MutexLock`; the code-entry
operations rely on the caller already holding the same lock. -/
theorem c8_counterexample :
    Ev.acquireLock ∉ ((CreateJITCodeEntry initState [1]).1).trace := by decide

/-- Claim C8 (amended): `RegisterDexFileForNative` and
`DeregisterDexFileForNative` acquire the single shared lock as their first
action and release it as their last, holding it across the whole mutation
(they invoke no trampoline); `CreateJITCodeEntry`, `DeleteJITCodeEntry`,
`IncrementJITCodeEntryRefcount` and `DecrementJITCodeEntryRefcount` perform
their mutations and trampoline calls with no lock operations of their own —
the source requires their callers to hold the same lock
(`GUARDED_BY(Locks::native_debug_interface_lock_)`). -/
theorem c8_amended_locking (s : DbgState) (a b : Nat) (bytes : List Nat)
    (id addr id2 addr2 : Nat) (e : JITCodeEntry)
    (he : lookupA id s.codeHeap = some e) :
    (RegisterDexFileForNative s a).trace =
      s.trace ++ [Ev.acquireLock, Ev.releaseLock] ∧
    (∃ mid, (DeregisterDexFileForNative s b).trace =
        s.trace ++ Ev.acquireLock :: mid ++ [Ev.releaseLock] ∧
      Ev.acquireLock ∉ mid ∧ Ev.releaseLock ∉ mid) ∧
    (∃ d ts, (CreateJITCodeEntry s bytes).1.trace = s.trace ++ [Ev.trampoline d ts]) ∧
    (DeleteJITCodeEntry s id).trace = s.trace ++
      [Ev.trampoline (DeleteJITCodeEntry s id).descriptor
        (DeleteJITCodeEntry s id).descriptorTimestamp,
       Ev.freeBlob e.symfile_addr_, Ev.freeCodeEntry id] ∧
    (IncrementJITCodeEntryRefcount s id2 addr2).trace = s.trace ∧
    (∃ tail, (DecrementJITCodeEntryRefcount s id2 addr2).trace = s.trace ++ tail ∧
      Ev.acquireLock ∉ tail ∧ Ev.releaseLock ∉ tail) := by
  refine ⟨?_, ?_, ?_, ?_, ?_, decrement_trace_no_lock s id2 addr2⟩
  · cases hl : lookupA a s.dexfileEntries with
    | none => rw [register_spec_absent s a hl]
    | some j => rw [register_spec_present s a (by simp [hl])]
  · cases hl : lookupA b s.dexfileEntries with
    | none =>
      refine ⟨[], ?_, by simp, by simp⟩
      rw [deregister_spec_absent s b hl]
      simp
    | some j =>
      cases hj : lookupA j s.dexHeap with
      | none =>
        refine ⟨[], ?_, by simp, by simp⟩
        have hnoop : DeregisterDexFileForNative s b =
            { s with trace := s.trace ++ [Ev.acquireLock, Ev.releaseLock] } := by
          simp only [DeregisterDexFileForNative, hl, hj]
        rw [hnoop]
        simp
      | some e2 =>
        refine ⟨[Ev.freeDexEntry j], ?_, by simp, by simp⟩
        rw [deregister_spec_present s b j e2 hl hj]
        simp
  · exact ⟨{ s.descriptor with first_entry_ := some (s.nextId + 1), relevant_entry_ := some (s.nextId + 1), action_flag_ := JITAction.registerFn }, (s.descriptorTimestamp + 1) % 2 ^ 32, by rw [create_spec]⟩
  · rw [delete_spec s id e he]
  · cases he2 : lookupA id2 s.codeHeap with
    | none => rw [increment_spec_absent s id2 addr2 he2]
    | some e2 => rw [increment_spec s id2 addr2 e2 he2]

/-- Witness for the amended C8 at concrete inputs. -/
theorem c8_witness :
    lookupA 1 (CreateJITCodeEntry initState [1]).1.codeHeap =
      some ⟨none, none, 0, 1, 0⟩ ∧
    ((RegisterDexFileForNative (CreateJITCodeEntry initState [1]).1 7).trace =
      (CreateJITCodeEntry initState [1]).1.trace ++ [Ev.acquireLock, Ev.releaseLock] ∧
    (∃ mid, (DeregisterDexFileForNative (CreateJITCodeEntry initState [1]).1 8).trace =
        (CreateJITCodeEntry initState [1]).1.trace ++
          Ev.acquireLock :: mid ++ [Ev.releaseLock] ∧
      Ev.acquireLock ∉ mid ∧ Ev.releaseLock ∉ mid) ∧
    (∃ d ts, (CreateJITCodeEntry (CreateJITCodeEntry initState [1]).1 [2]).1.trace =
      (CreateJITCodeEntry initState [1]).1.trace ++ [Ev.trampoline d ts]) ∧
    (DeleteJITCodeEntry (CreateJITCodeEntry initState [1]).1 1).trace =
      (CreateJITCodeEntry initState [1]).1.trace ++
        [Ev.trampoline (DeleteJITCodeEntry (CreateJITCodeEntry initState [1]).1 1).descriptor
          (DeleteJITCodeEntry (CreateJITCodeEntry initState [1]).1 1).descriptorTimestamp,
         Ev.freeBlob 0, Ev.freeCodeEntry 1] ∧
    (IncrementJITCodeEntryRefcount (CreateJITCodeEntry initState [1]).1 1 4096).trace =
      (CreateJITCodeEntry initState [1]).1.trace ∧
    (∃ tail, (DecrementJITCodeEntryRefcount (CreateJITCodeEntry initState [1]).1 1 4096).trace =
        (CreateJITCodeEntry initState [1]).1.trace ++ tail ∧
      Ev.acquireLock ∉ tail ∧ Ev.releaseLock ∉ tail)) :=
  ⟨by decide, c8_amended_locking (CreateJITCodeEntry initState [1]).1 7 8 [2] 1 4096 1 4096
    ⟨none, none, 0, 1, 0⟩ (by decide)⟩

/-- Claim C9: for a non-empty byte sequence, `CreateJITCodeEntry` stores the
bytes in a freshly allocated buffer of exactly the input's size — the buffer
identifier was not allocated before, the stored contents equal the input —
and the new entry's reference count starts at 0. -/
theorem c9_create_copies (s : DbgState) (bytes : List Nat) (hne : bytes ≠ [])
    (hinv : StateInv s) :
    ∃ bid, lookupA bid s.blobHeap = none ∧
      lookupA bid (CreateJITCodeEntry s bytes).1.blobHeap = some bytes ∧
      lookupA (CreateJITCodeEntry s bytes).2 (CreateJITCodeEntry s bytes).1.codeHeap =
        some ⟨s.descriptor.first_entry_, none, bid, bytes.length, 0⟩ := by
  refine ⟨s.nextId, fresh_lookup_none hinv.blobFresh, ?_, create_entry_lookup s bytes hinv⟩
  rw [create_spec]
  exact lookupA_cons_self _ _ _

/-- Witness for C9 at a concrete input. -/
theorem c9_witness :
    (([1] : List Nat) ≠ []) ∧
    (∃ bid, lookupA bid initState.blobHeap = none ∧
      lookupA bid (CreateJITCodeEntry initState [1]).1.blobHeap = some [1] ∧
      lookupA (CreateJITCodeEntry initState [1]).2
          (CreateJITCodeEntry initState [1]).1.codeHeap =
        some ⟨initState.descriptor.first_entry_, none, bid, 1, 0⟩) :=
  ⟨by decide, c9_create_copies initState [1] (by decide) stateInv_init⟩

/-- Claim C10: `IncrementJITCodeEntryRefcount` (attach) leaves all
debugger-visible state unchanged — descriptor, both change counters, the
dex-file list head and heap, the blob heap, the memory accumulator, and the
trace (no trampoline) — modifying only the entry's reference count and the
process-private code-address index; and the same holds for any
`DecrementJITCodeEntryRefcount` (detach) whose decremented reference count
is still non-zero, which additionally only erases its address binding. -/
theorem c10_refcount_frame (s : DbgState) (id addr : Nat) (e : JITCodeEntry)
    (he : lookupA id s.codeHeap = some e)
    (hnz : (e.ref_count + (2 ^ 32 - 1)) % 2 ^ 32 ≠ 0) :
    ((IncrementJITCodeEntryRefcount s id addr).descriptor = s.descriptor ∧
     (IncrementJITCodeEntryRefcount s id addr).descriptorTimestamp =
       s.descriptorTimestamp ∧
     (IncrementJITCodeEntryRefcount s id addr).artDebugDexfiles =
       s.artDebugDexfiles ∧
     (IncrementJITCodeEntryRefcount s id addr).dexfilesTimestamp =
       s.dexfilesTimestamp ∧
     (IncrementJITCodeEntryRefcount s id addr).dexHeap = s.dexHeap ∧
     (IncrementJITCodeEntryRefcount s id addr).blobHeap = s.blobHeap ∧
     (IncrementJITCodeEntryRefcount s id addr).memUsage = s.memUsage ∧
     (IncrementJITCodeEntryRefcount s id addr).trace = s.trace ∧
     lookupA id (IncrementJITCodeEntryRefcount s id addr).codeHeap =
       some { e with ref_count := (e.ref_count + 1) % 2 ^ 32 } ∧
     (∀ j, j ≠ id → lookupA j (IncrementJITCodeEntryRefcount s id addr).codeHeap =
       lookupA j s.codeHeap) ∧
     (IncrementJITCodeEntryRefcount s id addr).jitCodeEntries =
       emplaceA addr id s.jitCodeEntries) ∧
    ((DecrementJITCodeEntryRefcount s id addr).descriptor = s.descriptor ∧
     (DecrementJITCodeEntryRefcount s id addr).descriptorTimestamp =
       s.descriptorTimestamp ∧
     (DecrementJITCodeEntryRefcount s id addr).artDebugDexfiles =
       s.artDebugDexfiles ∧
     (DecrementJITCodeEntryRefcount s id addr).dexfilesTimestamp =
       s.dexfilesTimestamp ∧
     (DecrementJITCodeEntryRefcount s id addr).dexHeap = s.dexHeap ∧
     (DecrementJITCodeEntryRefcount s id addr).blobHeap = s.blobHeap ∧
     (DecrementJITCodeEntryRefcount s id addr).memUsage = s.memUsage ∧
     (DecrementJITCodeEntryRefcount s id addr).trace = s.trace ∧
     lookupA id (DecrementJITCodeEntryRefcount s id addr).codeHeap =
       some { e with ref_count := (e.ref_count + (2 ^ 32 - 1)) % 2 ^ 32 } ∧
     (∀ j, j ≠ id → lookupA j (DecrementJITCodeEntryRefcount s id addr).codeHeap =
       lookupA j s.codeHeap) ∧
     (DecrementJITCodeEntryRefcount s id addr).jitCodeEntries =
       eraseA addr s.jitCodeEntries) := by
  constructor
  · rw [increment_spec s id addr e he]
    refine ⟨rfl, rfl, rfl, rfl, rfl, rfl, rfl, rfl, ?_, ?_, rfl⟩
    · rw [lookupA_updateA_self, he]
      rfl
    · intro j hj
      exact lookupA_updateA_ne _ _ hj
  · rw [decrement_spec_pos s id addr e he hnz]
    refine ⟨rfl, rfl, rfl, rfl, rfl, rfl, rfl, rfl, ?_, ?_, rfl⟩
    · rw [lookupA_updateA_self, he]
      rfl
    · intro j hj
      exact lookupA_updateA_ne _ _ hj

/-- Witness for C10: the entry created from `[1]` (reference count 0; the
decremented count wraps to `2 ^ 32 - 1`, which is non-zero). -/
theorem c10_witness :
    lookupA 1 (CreateJITCodeEntry initState [1]).1.codeHeap =
      some ⟨none, none, 0, 1, 0⟩ ∧
    ((0 + (2 ^ 32 - 1)) % 2 ^ 32 ≠ 0) ∧
    ((IncrementJITCodeEntryRefcount (CreateJITCodeEntry initState [1]).1 1 4096).descriptor =
        (CreateJITCodeEntry initState [1]).1.descriptor ∧
      (IncrementJITCodeEntryRefcount (CreateJITCodeEntry initState [1]).1 1 4096).trace =
        (CreateJITCodeEntry initState [1]).1.trace) ∧
    ((DecrementJITCodeEntryRefcount (CreateJITCodeEntry initState [1]).1 1 4096).descriptor =
        (CreateJITCodeEntry initState [1]).1.descriptor ∧
      (DecrementJITCodeEntryRefcount (CreateJITCodeEntry initState [1]).1 1 4096).trace =
        (CreateJITCodeEntry initState [1]).1.trace) := by
  have h := c10_refcount_frame (CreateJITCodeEntry initState [1]).1 1 4096
    ⟨none, none, 0, 1, 0⟩ (by decide) (by decide)
  exact ⟨by decide, by decide, ⟨h.1.1, h.1.2.2.2.2.2.2.2.1⟩, ⟨h.2.1, h.2.2.2.2.2.2.2.2.1⟩⟩

/-- Claim C3: registering a file address that is already registered is a
complete no-op — the second call changes nothing but appending the lock
acquire/release pair to the trace — so after a first (fresh) registration and
a second identical one, exactly one `DEXFileEntry` with that address is in
the file list, and the file-list change counter was bumped by the first call
only. -/
theorem c3_register_idempotent (s : DbgState) (a : Nat) (hinv : StateInv s)
    (hfresh : lookupA a s.dexfileEntries = none) :
    (dexWalk (RegisterDexFileForNative s a)).countP
        (fun id => decide ((lookupA id (RegisterDexFileForNative s a).dexHeap).map
          DEXFileEntry.dexfile_ = some a)) = 1 ∧
    (RegisterDexFileForNative s a).dexfilesTimestamp =
      (s.dexfilesTimestamp + 1) % 2 ^ 32 ∧
    RegisterDexFileForNative (RegisterDexFileForNative s a) a =
      { RegisterDexFileForNative s a with
        trace := (RegisterDexFileForNative s a).trace ++
          [Ev.acquireLock, Ev.releaseLock] } := by
  have h1 := stateInv_register s a hinv
  have hidx : lookupA a (RegisterDexFileForNative s a).dexfileEntries = some s.nextId := by
    rw [register_spec_absent s a hfresh]
    exact lookupA_cons_self _ _ _
  have hnew : ∃ en, lookupA s.nextId (RegisterDexFileForNative s a).dexHeap = some en ∧
      en.dexfile_ = a := by
    rw [register_spec_absent s a hfresh]
    cases hd : s.artDebugDexfiles with
    | none => exact ⟨_, lookupA_cons_self _ _ _, rfl⟩
    | some nid =>
      have hnidlive : (lookupA nid s.dexHeap).isSome :=
        goodList_head_live (hd ▸ hinv.dexGood)
      have hnidne : s.nextId ≠ nid := by
        have := hinv.dexFresh nid (lookupA_isSome_iff.mp hnidlive)
        omega
      exact ⟨_, by rw [lookupA_updateA_ne _ _ hnidne, lookupA_cons_self], rfl⟩
  obtain ⟨en, hen, hena⟩ := hnew
  obtain ⟨hmem, hback, hnd⟩ :
      (∀ id, id ∈ dexWalk (RegisterDexFileForNative s a) ↔
        (lookupA id (RegisterDexFileForNative s a).dexHeap).isSome) ∧
      dexWalkBack (RegisterDexFileForNative s a) =
        (dexWalk (RegisterDexFileForNative s a)).reverse ∧
      (dexWalk (RegisterDexFileForNative s a)).Nodup := by
    simpa only [dexWalk, dexWalkBack] using goodList_walk_props h1.dexGood
  refine ⟨?_, ?_, ?_⟩
  · refine countP_eq_one_of_unique hnd ((hmem s.nextId).mpr (by simp [hen])) ?_ ?_
    · simp [hen, hena]
    · intro y hy hpy
      simp only [decide_eq_true_eq] at hpy
      cases hv : lookupA y (RegisterDexFileForNative s a).dexHeap with
      | none => rw [hv] at hpy; simp at hpy
      | some v =>
        rw [hv] at hpy
        simp only [Option.map_some', Option.some.injEq] at hpy
        have := h1.dexIdxComplete y v hv
        rw [hpy, hidx] at this
        injection this with h2
        exact h2.symm
  · rw [register_spec_absent s a hfresh]
  · exact register_spec_present _ a (by simp [hidx])

/-- Witness for C3 at a concrete state and address. -/
theorem c3_witness :
    lookupA 7 initState.dexfileEntries = none ∧
    ((dexWalk (RegisterDexFileForNative initState 7)).countP
        (fun id => decide ((lookupA id (RegisterDexFileForNative initState 7).dexHeap).map
          DEXFileEntry.dexfile_ = some 7)) = 1 ∧
      (RegisterDexFileForNative initState 7).dexfilesTimestamp =
        (initState.dexfilesTimestamp + 1) % 2 ^ 32 ∧
      RegisterDexFileForNative (RegisterDexFileForNative initState 7) 7 =
        { RegisterDexFileForNative initState 7 with
          trace := (RegisterDexFileForNative initState 7).trace ++
            [Ev.acquireLock, Ev.releaseLock] }) :=
  ⟨by decide, c3_register_idempotent initState 7 stateInv_init (by decide)⟩

/-- Claim C6: the memory-usage query equals the accounted sum over live code
entries of `sizeof(JITCodeEntry) + blob size` plus two pointer-sized slots
per live code-address mapping; creating an entry from a blob of size `S`
raises the query by exactly `S + sizeof(JITCodeEntry)`, and deleting that
entry returns the query to its pre-creation value. -/
theorem c6_memory_accounting (s : DbgState) (bytes : List Nat) (hinv : StateInv s)
    (hbound : codeMemSum s.codeHeap + (sizeofJITCodeEntry + bytes.length) +
      s.jitCodeEntries.length * (2 * sizeofPtr) < 2 ^ 64) :
    GetJITCodeEntryMemUsage s =
      codeMemSum s.codeHeap + s.jitCodeEntries.length * (2 * sizeofPtr) ∧
    GetJITCodeEntryMemUsage (CreateJITCodeEntry s bytes).1 =
      GetJITCodeEntryMemUsage s + (sizeofJITCodeEntry + bytes.length) ∧
    GetJITCodeEntryMemUsage
        (DeleteJITCodeEntry (CreateJITCodeEntry s bytes).1
          (CreateJITCodeEntry s bytes).2) =
      GetJITCodeEntryMemUsage s := by
  have hmem := hinv.memAcc
  refine ⟨?_, ?_, ?_⟩
  · simp only [GetJITCodeEntryMemUsage]
    rw [hmem]
    omega
  · simp only [GetJITCodeEntryMemUsage, create_spec]
    rw [hmem]
    omega
  · rw [delete_spec _ _ _ (create_entry_lookup s bytes hinv)]
    simp only [GetJITCodeEntryMemUsage, create_spec]
    rw [hmem]
    omega

/-- Witness for C6 at a concrete state and blob. -/
theorem c6_witness :
    (codeMemSum initState.codeHeap + (sizeofJITCodeEntry + ([1, 2] : List Nat).length) +
      initState.jitCodeEntries.length * (2 * sizeofPtr) < 2 ^ 64) ∧
    (GetJITCodeEntryMemUsage initState =
      codeMemSum initState.codeHeap +
        initState.jitCodeEntries.length * (2 * sizeofPtr) ∧
    GetJITCodeEntryMemUsage (CreateJITCodeEntry initState [1, 2]).1 =
      GetJITCodeEntryMemUsage initState + (sizeofJITCodeEntry + ([1, 2] : List Nat).length) ∧
    GetJITCodeEntryMemUsage
        (DeleteJITCodeEntry (CreateJITCodeEntry initState [1, 2]).1
          (CreateJITCodeEntry initState [1, 2]).2) =
      GetJITCodeEntryMemUsage initState) :=
  ⟨by decide, c6_memory_accounting initState [1, 2] stateInv_init (by decide)⟩

/-! ### Attach/detach sequences for the refcount-lifecycle claim -/

/-- Attach a list of code addresses to one entry, one
`IncrementJITCodeEntryRefcount` call per address. -/
def attachAll (s : DbgState) (id : Nat) (addrs : List Nat) : DbgState :=
  addrs.foldl (fun t a => IncrementJITCodeEntryRefcount t id a) s

/-- Detach a list of code addresses from one entry, one
`DecrementJITCodeEntryRefcount` call per address. -/
def detachAll (s : DbgState) (id : Nat) (addrs : List Nat) : DbgState :=
  addrs.foldl (fun t a => DecrementJITCodeEntryRefcount t id a) s

theorem stateInv_attachAll (s : DbgState) (id : Nat) (addrs : List Nat)
    (h : StateInv s) : StateInv (attachAll s id addrs) := by
  induction addrs generalizing s with
  | nil => exact h
  | cons a rest ih => exact ih _ (stateInv_increment s id a h)

theorem stateInv_detachAll (s : DbgState) (id : Nat) (addrs : List Nat)
    (h : StateInv s) : StateInv (detachAll s id addrs) := by
  induction addrs generalizing s with
  | nil => exact h
  | cons a rest ih => exact ih _ (stateInv_decrement s id a h)

theorem attachAll_lookup (s : DbgState) (id : Nat) (addrs : List Nat)
    (e : JITCodeEntry) (he : lookupA id s.codeHeap = some e)
    (hlt : e.ref_count + addrs.length < 2 ^ 32) :
    lookupA id (attachAll s id addrs).codeHeap =
      some { e with ref_count := e.ref_count + addrs.length } := by
  induction addrs generalizing s e with
  | nil => simpa using he
  | cons a rest ih =>
    simp only [List.length_cons] at hlt
    have hstep : lookupA id (IncrementJITCodeEntryRefcount s id a).codeHeap =
        some { e with ref_count := e.ref_count + 1 } := by
      rw [increment_spec s id a e he, lookupA_updateA_self, he]
      have h1 : (e.ref_count + 1) % 2 ^ 32 = e.ref_count + 1 := by omega
      simp [h1] <;> omega
    have := ih (IncrementJITCodeEntryRefcount s id a)
      { e with ref_count := e.ref_count + 1 } hstep (by simp; omega)
    rw [show attachAll s id (a :: rest) =
      attachAll (IncrementJITCodeEntryRefcount s id a) id rest from rfl, this]
    have harith : e.ref_count + 1 + rest.length = e.ref_count + (rest.length + 1) := by
      omega
    simp [harith]

theorem detachAll_live (s : DbgState) (id : Nat) (addrs : List Nat)
    (e : JITCodeEntry) (he : lookupA id s.codeHeap = some e)
    (hgt : addrs.length < e.ref_count) (hub : e.ref_count < 2 ^ 32) :
    lookupA id (detachAll s id addrs).codeHeap =
      some { e with ref_count := e.ref_count - addrs.length } := by
  induction addrs generalizing s e with
  | nil => simpa using he
  | cons a rest ih =>
    simp only [List.length_cons] at hgt
    have hr : (e.ref_count + (2 ^ 32 - 1)) % 2 ^ 32 = e.ref_count - 1 := by omega
    have hrnz : (e.ref_count + (2 ^ 32 - 1)) % 2 ^ 32 ≠ 0 := by omega
    have hstep : lookupA id (DecrementJITCodeEntryRefcount s id a).codeHeap =
        some { e with ref_count := e.ref_count - 1 } := by
      rw [decrement_spec_pos s id a e he hrnz, lookupA_updateA_self, he]
      simp [hr] <;> omega
    have := ih (DecrementJITCodeEntryRefcount s id a)
      { e with ref_count := e.ref_count - 1 } hstep (by simp; omega) (by simp; omega)
    rw [show detachAll s id (a :: rest) =
      detachAll (DecrementJITCodeEntryRefcount s id a) id rest from rfl, this]
    have harith : e.ref_count - 1 - rest.length = e.ref_count - (rest.length + 1) := by
      omega
    simp [harith]

theorem detachAll_kill (s : DbgState) (id : Nat) (addrs : List Nat)
    (e : JITCodeEntry) (he : lookupA id s.codeHeap = some e)
    (hlen : e.ref_count = addrs.length) (hpos : 0 < addrs.length)
    (hub : e.ref_count < 2 ^ 32) :
    lookupA id (detachAll s id addrs).codeHeap = none := by
  induction addrs generalizing s e with
  | nil => simp at hpos
  | cons a rest ih =>
    simp only [List.length_cons] at hlen
    by_cases hz : rest.length = 0
    · have hrest : rest = [] := List.length_eq_zero.mp hz
      subst hrest
      have hr1 : e.ref_count = 1 := by omega
      have hr0 : (e.ref_count + (2 ^ 32 - 1)) % 2 ^ 32 = 0 := by omega
      rw [show detachAll s id [a] = DecrementJITCodeEntryRefcount s id a from rfl]
      rw [decrement_spec_zero s id a e he hr0]
      have hlook : lookupA id (updateA id (fun e2 => { e2 with ref_count := (e.ref_count + (2 ^ 32 - 1)) % 2 ^ 32 }) s.codeHeap) = some { e with ref_count := (e.ref_count + (2 ^ 32 - 1)) % 2 ^ 32 } := by
        rw [lookupA_updateA_self, he]
        rfl
      rw [delete_spec { s with codeHeap := (updateA id (fun e2 => { e2 with ref_count := (e.ref_count + (2 ^ 32 - 1)) % 2 ^ 32 }) s.codeHeap) } id { e with ref_count := (e.ref_count + (2 ^ 32 - 1)) % 2 ^ 32 } hlook]
      exact lookupA_eraseA_self _ _
    · have hr : (e.ref_count + (2 ^ 32 - 1)) % 2 ^ 32 = e.ref_count - 1 := by omega
      have hrnz : (e.ref_count + (2 ^ 32 - 1)) % 2 ^ 32 ≠ 0 := by omega
      have hstep : lookupA id (DecrementJITCodeEntryRefcount s id a).codeHeap =
          some { e with ref_count := e.ref_count - 1 } := by
        rw [decrement_spec_pos s id a e he hrnz, lookupA_updateA_self, he]
        simp [hr] <;> omega
      exact ih (DecrementJITCodeEntryRefcount s id a)
        { e with ref_count := e.ref_count - 1 } hstep (by simp; omega)
        (by omega) (by simp; omega)

theorem lookupA_eraseA_none {V : Type} {a b : Nat} {l : List (Nat × V)}
    (h : lookupA a l = none) : lookupA a (eraseA b l) = none := by
  by_cases hab : a = b
  · subst hab
    exact lookupA_eraseA_self a l
  · rw [lookupA_eraseA_ne l hab]
    exact h

/-- A detach erases the index binding of its own code address in every branch:
absent entry, plain decrement, and decrement-to-zero with deletion. -/
theorem decrement_get_self (s : DbgState) (id b : Nat) :
    GetJITCodeEntry (DecrementJITCodeEntryRefcount s id b) b = none := by
  cases he : lookupA id s.codeHeap with
  | none =>
    rw [decrement_spec_absent s id b he]
    exact lookupA_eraseA_self b _
  | some e =>
    by_cases hr : (e.ref_count + (2 ^ 32 - 1)) % 2 ^ 32 = 0
    · rw [decrement_spec_zero s id b e he hr]
      exact lookupA_eraseA_self b _
    · rw [decrement_spec_pos s id b e he hr]
      exact lookupA_eraseA_self b _

/-- A detach never resurrects an index binding: an address whose lookup is
already not-found stays not-found. -/
theorem decrement_get_mono (s : DbgState) (id b a : Nat)
    (h : GetJITCodeEntry s a = none) :
    GetJITCodeEntry (DecrementJITCodeEntryRefcount s id b) a = none := by
  cases he : lookupA id s.codeHeap with
  | none =>
    rw [decrement_spec_absent s id b he]
    exact lookupA_eraseA_none h
  | some e =>
    by_cases hr : (e.ref_count + (2 ^ 32 - 1)) % 2 ^ 32 = 0
    · rw [decrement_spec_zero s id b e he hr]
      exact lookupA_eraseA_none h
    · rw [decrement_spec_pos s id b e he hr]
      exact lookupA_eraseA_none h

theorem detachAll_get_none (s : DbgState) (id : Nat) (addrs : List Nat) (a : Nat)
    (h : a ∈ addrs ∨ GetJITCodeEntry s a = none) :
    GetJITCodeEntry (detachAll s id addrs) a = none := by
  induction addrs generalizing s with
  | nil =>
    rcases h with h | h
    · simp at h
    · exact h
  | cons b rest ih =>
    rw [show detachAll s id (b :: rest) =
      detachAll (DecrementJITCodeEntryRefcount s id b) id rest from rfl]
    rcases h with h | h
    · rcases List.mem_cons.mp h with hb | hb
      · exact ih _ (Or.inr (hb ▸ decrement_get_self s id b))
      · exact ih _ (Or.inl hb)
    · exact ih _ (Or.inr (decrement_get_mono s id b a h))

/-- A live entry of a state satisfying the invariant is reachable by the
head-to-tail walk of the global list. -/
theorem inv_mem_codeWalk (s : DbgState) (hinv : StateInv s) (id : Nat)
    (hlive : (lookupA id s.codeHeap).isSome) : id ∈ codeWalk s := by
  have h := (goodList_walk_props hinv.codeGood).1 id
  rw [codeWalk]
  exact h.mpr hlive

/-- Claim C1: for every CodeEntry created and then attached to k ≥ 1 distinct
code addresses, detaching those addresses one by one deletes the entry
exactly when the last (k-th) address is detached and not earlier — after any
proper prefix of the detaches the entry is still live in the heap and
reachable by the head-to-tail walk of the global list, and after all k
detaches its heap binding is gone — and every detach removes its
code-address-to-entry index mapping regardless of whether that detach
triggered deletion, so a subsequent `GetJITCodeEntry` of any already-detached
address returns not-found. -/
theorem c1_refcount_lifecycle (s : DbgState) (bytes addrs : List Nat)
    (hinv : StateInv s) (hnd : addrs.Nodup) (hne : addrs ≠ [])
    (hlt : addrs.length < 2 ^ 32) :
    (∀ i, i < addrs.length →
        (lookupA (CreateJITCodeEntry s bytes).2
            (detachAll (attachAll (CreateJITCodeEntry s bytes).1
                (CreateJITCodeEntry s bytes).2 addrs)
              (CreateJITCodeEntry s bytes).2 (addrs.take i)).codeHeap).isSome ∧
        (CreateJITCodeEntry s bytes).2 ∈
          codeWalk (detachAll (attachAll (CreateJITCodeEntry s bytes).1
              (CreateJITCodeEntry s bytes).2 addrs)
            (CreateJITCodeEntry s bytes).2 (addrs.take i))) ∧
    lookupA (CreateJITCodeEntry s bytes).2
        (detachAll (attachAll (CreateJITCodeEntry s bytes).1
            (CreateJITCodeEntry s bytes).2 addrs)
          (CreateJITCodeEntry s bytes).2 addrs).codeHeap = none ∧
    (∀ i, i < addrs.length → ∀ a ∈ addrs.take (i + 1),
        GetJITCodeEntry (detachAll (attachAll (CreateJITCodeEntry s bytes).1
            (CreateJITCodeEntry s bytes).2 addrs)
          (CreateJITCodeEntry s bytes).2 (addrs.take (i + 1))) a = none) ∧
    (∀ a ∈ addrs,
        GetJITCodeEntry (detachAll (attachAll (CreateJITCodeEntry s bytes).1
            (CreateJITCodeEntry s bytes).2 addrs)
          (CreateJITCodeEntry s bytes).2 addrs) a = none) := by
  have hinv1 : StateInv (CreateJITCodeEntry s bytes).1 := stateInv_create s bytes hinv
  have hc := create_entry_lookup s bytes hinv
  have ha : lookupA (CreateJITCodeEntry s bytes).2
      (attachAll (CreateJITCodeEntry s bytes).1
        (CreateJITCodeEntry s bytes).2 addrs).codeHeap =
      some { next_ := s.descriptor.first_entry_, prev_ := none,
             symfile_addr_ := s.nextId, symfile_size_ := bytes.length,
             ref_count := addrs.length } := by
    have h1 := attachAll_lookup (CreateJITCodeEntry s bytes).1
      (CreateJITCodeEntry s bytes).2 addrs _ hc
      (by show 0 + addrs.length < 2 ^ 32; omega)
    simpa using h1
  have hinv2 : StateInv (attachAll (CreateJITCodeEntry s bytes).1
      (CreateJITCodeEntry s bytes).2 addrs) := stateInv_attachAll _ _ _ hinv1
  refine ⟨?_, ?_, ?_, ?_⟩
  · intro i hi
    have htake : (addrs.take i).length = i := by
      rw [List.length_take]
      omega
    have hd := detachAll_live (attachAll (CreateJITCodeEntry s bytes).1
        (CreateJITCodeEntry s bytes).2 addrs) (CreateJITCodeEntry s bytes).2
      (addrs.take i) _ ha (by rw [htake]; exact hi) hlt
    refine ⟨by rw [hd]; rfl, ?_⟩
    exact inv_mem_codeWalk _ (stateInv_detachAll _ _ _ hinv2) _ (by rw [hd]; rfl)
  · exact detachAll_kill (attachAll (CreateJITCodeEntry s bytes).1
        (CreateJITCodeEntry s bytes).2 addrs) (CreateJITCodeEntry s bytes).2
      addrs _ ha rfl (List.length_pos.mpr hne) hlt
  · intro i hi a hamem
    exact detachAll_get_none _ _ _ a (Or.inl hamem)
  · intro a ha2
    exact detachAll_get_none _ _ _ a (Or.inl ha2)

/-- Concrete instance of C1: one entry created in the initial state from a
one-byte blob, attached to the three distinct addresses 4096, 8192, 12288
and then detached from all three. -/
theorem c1_witness :
    StateInv initState ∧ ([4096, 8192, 12288] : List Nat).Nodup ∧
    ([4096, 8192, 12288] : List Nat) ≠ [] ∧
    ([4096, 8192, 12288] : List Nat).length < 2 ^ 32 ∧
    ((∀ i, i < ([4096, 8192, 12288] : List Nat).length →
        (lookupA (CreateJITCodeEntry initState [1]).2
            (detachAll (attachAll (CreateJITCodeEntry initState [1]).1
                (CreateJITCodeEntry initState [1]).2 [4096, 8192, 12288])
              (CreateJITCodeEntry initState [1]).2
              (([4096, 8192, 12288] : List Nat).take i)).codeHeap).isSome ∧
        (CreateJITCodeEntry initState [1]).2 ∈
          codeWalk (detachAll (attachAll (CreateJITCodeEntry initState [1]).1
              (CreateJITCodeEntry initState [1]).2 [4096, 8192, 12288])
            (CreateJITCodeEntry initState [1]).2
            (([4096, 8192, 12288] : List Nat).take i))) ∧
    lookupA (CreateJITCodeEntry initState [1]).2
        (detachAll (attachAll (CreateJITCodeEntry initState [1]).1
            (CreateJITCodeEntry initState [1]).2 [4096, 8192, 12288])
          (CreateJITCodeEntry initState [1]).2 [4096, 8192, 12288]).codeHeap = none ∧
    (∀ i, i < ([4096, 8192, 12288] : List Nat).length →
        ∀ a ∈ ([4096, 8192, 12288] : List Nat).take (i + 1),
        GetJITCodeEntry (detachAll (attachAll (CreateJITCodeEntry initState [1]).1
            (CreateJITCodeEntry initState [1]).2 [4096, 8192, 12288])
          (CreateJITCodeEntry initState [1]).2
          (([4096, 8192, 12288] : List Nat).take (i + 1))) a = none) ∧
    (∀ a ∈ ([4096, 8192, 12288] : List Nat),
        GetJITCodeEntry (detachAll (attachAll (CreateJITCodeEntry initState [1]).1
            (CreateJITCodeEntry initState [1]).2 [4096, 8192, 12288])
          (CreateJITCodeEntry initState [1]).2 [4096, 8192, 12288]) a = none)) :=
  ⟨stateInv_init, by decide, by decide, by decide,
    c1_refcount_lifecycle initState [1] [4096, 8192, 12288] stateInv_init
      (by decide) (by decide) (by decide)⟩
